import Mathlib

set_option maxRecDepth 100000

/-!
Verification of the bozorth3-rust fingerprint matcher core against its
natural-language specification.  The Rust sources (crate `bozorth`) are
shallowly embedded below: pure functions become Lean functions over `ℤ`/`ℕ`,
the mutable engine state becomes an explicitly threaded record, fixed-size
arrays indexed by small integers become total maps `ℕ → ℕ`, and the few
`f32` computations are modelled over `ℚ` (exact for the integer/half-integer
ranges the claims concern; this is noted at each definition).  Loops whose
termination is not structural carry an explicit fuel argument; fuel
exhaustion only truncates runs longer than the supplied fuel, and every
concrete evaluation below completes well within its fuel.
-/

namespace Bozorth

/-! ## Configuration constants (crate `consts.rs`, default values)

The Rust crate stores these in process-wide atomics with the defaults below;
all claims concern the default configuration, so they are embedded as plain
constants.  `is_strict_mode` (crate root, `STRICT_MODE`) defaults to `true`.
-/

def max_minutia_distance : ℤ := 125

def max_minutia_distance_squared : ℤ := 75 ^ 2

def min_number_of_pairs_to_build_cluster : ℕ := 3

def max_number_of_clusters : ℕ := 2000

def score_threshold : ℕ := 8

def angle_lower_bound : ℤ := 11

def angle_upper_bound : ℤ := 360 - 11

def max_number_of_groups : ℕ := 10

/-- Compile-time constant `MAX_NUMBER_OF_PAIRS` (consts.rs). -/
def MAX_NUMBER_OF_PAIRS : ℕ := 20000

/-- Compile-time constant `MAX_NUMBER_OF_MINUTIAE` (consts.rs). -/
def MAX_NUMBER_OF_MINUTIAE : ℕ := 200

/-- Compile-time constant `MIN_NUMBER_OF_EDGES` (consts.rs). -/
def MIN_NUMBER_OF_EDGES : ℕ := 500

/-- Compile-time constant `MAX_NUMBER_OF_EDGES` (consts.rs). -/
def MAX_NUMBER_OF_EDGES : ℕ := 20000

/-- The `FACTOR` atomic holds `0.05f32`; it is modelled as the rational
`1/20`.  No theorem below depends on the Boolean outcome of a comparison
involving `factor`, so the tiny difference between `0.05f32` and `1/20`
is immaterial here. -/
def factor : ℚ := 1 / 20

/-- Crate-root `STRICT_MODE` atomic, default `true`. -/
def is_strict_mode : Bool := true

/-! ## Angle mathematics (`math.rs`) -/

/-- Embedding of `math.rs::are_angles_opposite`: the two early-return `if`s
collapse to one conditional equality test. -/
def are_angles_opposite (a b : ℤ) : Bool :=
  if 0 < b then a == b - 180 else a == b + 180

/-- Rounding of `math.rs::rounded` (`f32::round`, which rounds half away
from zero), modelled on `ℚ`. -/
def roundQ (x : ℚ) : ℤ :=
  if 0 ≤ x then ⌊x + 1 / 2⌋ else ⌈x - 1 / 2⌉

/-- Embedding of `math.rs::normalize_angle`. -/
def normalize_angle (deg : ℤ) : ℤ :=
  if 180 < deg then deg - 360
  else if deg ≤ -180 then deg + 360
  else deg

/-- Embedding of `math.rs::Averager` (field for field). -/
structure Averager where
  sum_of_negative : ℤ
  number_of_negative : ℕ
  sum_of_positive : ℤ
  number_of_positive : ℕ
deriving DecidableEq

def Averager.new : Averager := ⟨0, 0, 0, 0⟩

def Averager.push (a : Averager) (value : ℤ) : Averager :=
  if value < 0 then
    { a with sum_of_negative := a.sum_of_negative + value,
             number_of_negative := a.number_of_negative + 1 }
  else
    { a with sum_of_positive := a.sum_of_positive + value,
             number_of_positive := a.number_of_positive + 1 }

/-- Rounding of the exact fraction p / q (for q > 0) to the nearest integer
with halves away from zero: the integer form of `f32::round` applied to an
exactly represented quotient.  Both division operands are nonnegative, so
Lean's integer division coincides with floor division here. -/
def round_div (p q : ℤ) : ℤ :=
  if 0 ≤ p then (2 * p + q) / (2 * q) else -((2 * (-p) + q) / (2 * q))

/-- Embedding of `math.rs::Averager::average`.  The `f32` arithmetic of the
source is modelled by exact rational arithmetic, expressed over ℤ so that
the definition is kernel-computable: a quotient s / n is kept as the pair
(s, n), the comparison s₁/n₁ − s₂/n₂ > 180 becomes
s₁·n₂ − s₂·n₁ > 180·n₁·n₂ (all counts positive), subtracting 360 from s / n
becomes (s − 360·n) / n, and the final `f32::round` becomes `round_div`.
For the inputs of the claims (at most a few hundred integer degree values)
every intermediate `f32` value of the source is exactly representable, so
this model agrees with the source bit for bit.  The source ends with
`assert!(average > -180 && average <= 180)`; the theorem for claim C9 shows
the asserted range.  (A zero push count would divide 0.0 by 0.0 in the
source; the model returns `round_div s 0 = 0` there, and no caller averages
an empty record.) -/
def Averager.average (a : Averager) : ℤ :=
  let number_of_negative : ℤ := max (a.number_of_negative : ℤ) 1
  let number_of_positive : ℤ := max (a.number_of_positive : ℤ) 1
  let number_of_all : ℤ := (a.number_of_positive : ℤ) + (a.number_of_negative : ℤ)
  let average :=
    if 180 * number_of_positive * number_of_negative <
        a.sum_of_positive * number_of_negative - a.sum_of_negative * number_of_positive then
      let numerator := a.sum_of_positive + a.sum_of_negative
        + (a.number_of_negative : ℤ) * 360
      if 180 * number_of_all < numerator then
        round_div (numerator - 360 * number_of_all) number_of_all
      else round_div numerator number_of_all
    else round_div (a.sum_of_positive + a.sum_of_negative) number_of_all
  if average ≤ -180 then average + 360 else average

/-- Embedding of `math.rs::average_angles`. -/
def average_angles (a b : ℤ) : ℤ :=
  ((Averager.new.push a).push b).average

/-- Embedding of `math.rs::are_angles_equal_with_tolerance`. -/
def are_angles_equal_with_tolerance (a b : ℤ) : Bool :=
  let difference := |a - b|
  !(angle_lower_bound < difference ∧ difference < angle_upper_bound : Bool)

/-- Embedding of `math.rs::atan2_round_degree`.  The transcendental
`f32::atan2` composed with `rad_to_deg` is abstracted as the parameter
`atan2Deg` giving the angle in degrees; mathematically its values lie in
[-180, 180], which theorems that need it take as a hypothesis. -/
def atan2_round_degree (atan2Deg : ℤ → ℤ → ℚ) (dx dy : ℤ) : ℤ :=
  if dx = 0 then 90 else roundQ (atan2Deg dx dy)

/-- Embedding of `math.rs::calculate_slope_in_degrees`; `atanDeg` abstracts
`f32::atan` composed with `rad_to_deg`, applied to the quotient dy/dx. -/
def calculate_slope_in_degrees (atanDeg : ℚ → ℚ) (dx dy : ℤ) : ℤ :=
  if dx ≠ 0 then
    let fi0 := atanDeg ((dy : ℚ) / (dx : ℚ))
    let fi1 := if fi0 < 0 then (if dx < 0 then fi0 + 180 else fi0)
               else (if dx < 0 then fi0 - 180 else fi0)
    let fi := roundQ fi1
    if fi ≤ -180 then fi + 360 else fi
  else if dy ≤ 0 then -90 else 90

/-! ## Data types (`types.rs`)

`Endpoint` is a newtype around a small index; it is embedded as `ℕ`.
-/

inductive MinutiaKind
  | Type0
  | Type1
deriving DecidableEq

/-- Embedding of `types.rs::Minutia`. -/
structure Minutia where
  x : ℤ
  y : ℤ
  theta : ℤ
  kind : MinutiaKind
deriving DecidableEq

instance : Inhabited Minutia := ⟨⟨0, 0, 0, .Type0⟩⟩

inductive BetaOrder
  | KJ
  | JK
deriving DecidableEq

/-- Embedding of `types.rs::Edge`. -/
structure Edge where
  distance_squared : ℤ
  min_beta : ℤ
  max_beta : ℤ
  endpoint_k : ℕ
  endpoint_j : ℕ
  theta_kj : ℤ
  beta_order : BetaOrder
deriving DecidableEq

instance : Inhabited Edge := ⟨⟨0, 0, 0, 0, 0, 0, .KJ⟩⟩

/-- Embedding of `types.rs::Pair`. -/
structure Pair where
  delta_theta : ℤ
  probe_k : ℕ
  gallery_k : ℕ
  probe_j : ℕ
  gallery_j : ℕ
  points : ℕ
deriving DecidableEq

instance : Inhabited Pair := ⟨⟨0, 0, 0, 0, 0, 0⟩⟩

inductive Format
  | NistInternal
  | Ansi

/-! ## Edge construction (`find_edges.rs`) -/

/-- Selection of the `dy` argument fed to `atan2_round_degree` by
`find_edges`: unchanged for the NIST-internal format, negated for ANSI. -/
def oriented_dy (format : Format) (dy : ℤ) : ℤ :=
  match format with
  | .NistInternal => dy
  | .Ansi => -dy

/-- Construction of one edge from minutiae `k` and `j`, as performed in the
loop body of `find_edges.rs::find_edges` (the θ, β and ordering
computations). -/
def make_edge (atan2Deg : ℤ → ℤ → ℚ) (m : List Minutia) (format : Format)
    (mk : Minutia) (k j : ℕ) : Edge :=
  let mj := m.getD j default
  let dx := mj.x - mk.x
  let dy := mj.y - mk.y
  let theta_kj := atan2_round_degree atan2Deg dx (oriented_dy format dy)
  let beta_k := normalize_angle (theta_kj - mk.theta)
  let beta_j := normalize_angle (theta_kj - mj.theta + 180)
  if beta_k < beta_j then ⟨dx ^ 2 + dy ^ 2, beta_k, beta_j, k, j, theta_kj, .KJ⟩
  else ⟨dx ^ 2 + dy ^ 2, beta_j, beta_k, k, j, theta_kj, .JK⟩

/-- Inner loop of `find_edges.rs::find_edges` over the second endpoint `j`;
`js` is the list of remaining `j` indices.  The returned Boolean records
whether the edge-count cap fired `break 'main`. -/
def find_edges_inner (atan2Deg : ℤ → ℤ → ℚ) (m : List Minutia) (format : Format)
    (mk : Minutia) (k : ℕ) : List ℕ → List Edge → List Edge × Bool
  | [], edges => (edges, false)
  | j :: js, edges =>
    let mj := m.getD j default
    if are_angles_opposite mk.theta mj.theta then
      find_edges_inner atan2Deg m format mk k js edges
    else
      let dx := mj.x - mk.x
      let dy := mj.y - mk.y
      if max_minutia_distance ^ 2 < dx ^ 2 + dy ^ 2 then
        if max_minutia_distance < dx then (edges, false)
        else find_edges_inner atan2Deg m format mk k js edges
      else
        let edges2 := edges ++ [make_edge atan2Deg m format mk k j]
        if edges2.length = MAX_NUMBER_OF_EDGES - 1 then (edges2, true)
        else find_edges_inner atan2Deg m format mk k js edges2

/-- Outer loop of `find_edges.rs::find_edges` over the first endpoint `k`. -/
def find_edges_outer (atan2Deg : ℤ → ℤ → ℚ) (m : List Minutia) (format : Format) :
    List ℕ → List Edge → List Edge
  | [], edges => edges
  | k :: ks, edges =>
    let res := find_edges_inner atan2Deg m format (m.getD k default) k
      (List.range' (k + 1) (m.length - (k + 1))) edges
    if res.2 then res.1 else find_edges_outer atan2Deg m format ks res.1

/-- Lexicographic order on the sort key
`(distance_squared, min_beta, max_beta)` used by `find_edges`'s final
`sort_by_key`. -/
def edge_key_le (a b : Edge) : Prop :=
  a.distance_squared < b.distance_squared ∨
    (a.distance_squared = b.distance_squared ∧
      (a.min_beta < b.min_beta ∨
        (a.min_beta = b.min_beta ∧ a.max_beta ≤ b.max_beta)))

instance : DecidableRel edge_key_le := fun a b => by
  unfold edge_key_le
  infer_instance

instance : IsTotal Edge edge_key_le := by
  constructor
  intro a b
  unfold edge_key_le
  omega

instance : IsTrans Edge edge_key_le := by
  constructor
  intro a b c hab hbc
  unfold edge_key_le at hab hbc ⊢
  omega

/-- Embedding of `find_edges.rs::find_edges`.  The Rust function first
asserts that the minutiae list is non-empty and panics otherwise; the panic
is modelled as `none`.  Rust's stable `sort_by_key` is modelled by insertion
sort, which is also stable, and the result of a stable sort by a key is
uniquely determined, so the two agree. -/
def find_edges (atan2Deg : ℤ → ℤ → ℚ) (minutiae : List Minutia)
    (edges : List Edge) (format : Format) : Option (List Edge) :=
  if minutiae.isEmpty then none
  else
    some ((find_edges_outer atan2Deg minutiae format
      (List.range (minutiae.length - 1)) edges).insertionSort edge_key_le)

/-! ## Edge limiting (`utils.rs`) -/

/-- Boolean predicate selecting the edges within the edge-limit cutoff; used
to state claim C4. -/
def within (max_distance : ℤ) (e : Edge) : Bool :=
  e.distance_squared ≤ max_distance

/-- Binary-search loop of `utils.rs::limit_edges_by_length` with the loop
state (`lower`, `upper`, `current`) threaded explicitly.  The `while` loop
shrinks `upper - lower` on every iteration, so the fuel `edges.length + 1`
supplied by `limit_edges_by_length` is never exhausted. -/
def limit_edges_by_length_go (edges : List Edge) (max_distance : ℤ) :
    ℕ → ℕ → ℕ → ℕ → ℕ
  | 0, _, _, current => current
  | fuel + 1, lower, upper, current =>
    if 1 < upper - lower then
      let midpoint := (lower + upper) / 2
      if max_distance < (edges.getD (midpoint - 1) default).distance_squared then
        limit_edges_by_length_go edges max_distance fuel lower midpoint current
      else
        limit_edges_by_length_go edges max_distance fuel midpoint upper (midpoint + 1)
    else current

/-- Embedding of `utils.rs::limit_edges_by_length`. -/
def limit_edges_by_length (edges : List Edge) (max_distance : ℤ) : ℕ :=
  min (limit_edges_by_length_go edges max_distance (edges.length + 1) 0 (edges.length + 1) 1)
    edges.length

/-- Embedding of the standard library `slice::binary_search_by_key` loop
used by `limit_edges` in relaxed mode.  `limit_edges` consumes the `Ok` and
`Err` positions identically, so both collapse to the returned position. -/
def rust_binary_search_go (edges : List Edge) (key : ℤ) : ℕ → ℕ → ℕ → ℕ
  | 0, left, _ => left
  | fuel + 1, left, right =>
    if left < right then
      let mid := left + (right - left) / 2
      let d := (edges.getD mid default).distance_squared
      if d < key then rust_binary_search_go edges key fuel (mid + 1) right
      else if key < d then rust_binary_search_go edges key fuel left mid
      else mid
    else left

/-- Embedding of `utils.rs::limit_edges`. -/
def limit_edges (edges : List Edge) : ℕ :=
  let limit :=
    if is_strict_mode then limit_edges_by_length edges max_minutia_distance_squared
    else rust_binary_search_go edges max_minutia_distance_squared
      (edges.length + 1) 0 edges.length
  min (max MIN_NUMBER_OF_EDGES limit) edges.length

/-- Concrete edge with a given squared distance, for the claim C4
counterexample. -/
def c4_edge (d : ℤ) : Edge := ⟨d, 0, 0, 0, 0, 0, .KJ⟩

/-- Concrete sorted 501-edge list for the claim C4 counterexample: 500 edges
within the cutoff followed by one beyond it. -/
def c4_edges : List Edge := List.replicate 500 (c4_edge 1) ++ [c4_edge 10000]

/-- Concrete two-edge sorted list used by the witness of the amended
claim C4. -/
def c4_w_edges : List Edge := [c4_edge 1, c4_edge 2]

/-- Well-formedness of an emitted edge, as stated by claim C6: the two β
angles are ordered and lie in (-180, 180], and the edge does not join two
minutiae with opposite orientations. -/
def edge_ok (m : List Minutia) (e : Edge) : Prop :=
  e.min_beta ≤ e.max_beta ∧
  (-180 < e.min_beta ∧ e.min_beta ≤ 180) ∧
  (-180 < e.max_beta ∧ e.max_beta ≤ 180) ∧
  are_angles_opposite (m.getD e.endpoint_k default).theta
    (m.getD e.endpoint_j default).theta = false

/-- Constant-zero stand-in for the abstracted arctangent parameters, used by
concrete witnesses (its range hypothesis holds trivially). -/
def zeroAtan2 : ℤ → ℤ → ℚ := fun _ _ => 0

/-- Concrete two-minutiae list used by the witnesses of claims C6 and C10.
The two minutiae share their x coordinate so the emitted edge goes through
the dx = 0 branch of `atan2_round_degree`, keeping the whole computation in
ℤ. -/
def c6_m : List Minutia := [⟨0, 0, 0, .Type0⟩, ⟨0, 5, 10, .Type0⟩]

/-! ## Clusters (`clusters.rs`) -/

/-- Embedding of `set_intersection.rs::intersection_of_sorted` (on `Greater`
the second iterator advances, on `Less` the first, on `Equal` the element of
the second is emitted and both advance).  Each step drops one element of
either list, so the fuel `l1.length + l2.length` supplied by
`intersection_of_sorted` is never exhausted. -/
def intersection_go : ℕ → List ℕ → List ℕ → List ℕ
  | 0, _, _ => []
  | _ + 1, [], _ => []
  | _ + 1, _ :: _, [] => []
  | g + 1, a :: as2, b :: bs =>
    if b < a then intersection_go g (a :: as2) bs
    else if a < b then intersection_go g as2 (b :: bs)
    else b :: intersection_go g as2 bs

def intersection_of_sorted (l1 l2 : List ℕ) : List ℕ :=
  intersection_go (l1.length + l2.length) l1 l2

/-- Embedding of `Vec::dedup` (removal of consecutive duplicates), applied
by `combine_clusters` to an already sorted list. -/
def dedup_sorted : List ℕ → List ℕ
  | [] => []
  | [a] => [a]
  | a :: b :: rest =>
    if a = b then dedup_sorted (b :: rest) else a :: dedup_sorted (b :: rest)

/-- Embedding of `clusters.rs::ClusterAverages`. -/
structure ClusterAverages where
  delta_theta : ℤ
  probe_x : ℤ
  probe_y : ℤ
  gallery_x : ℤ
  gallery_y : ℤ
deriving DecidableEq

instance : Inhabited ClusterAverages := ⟨⟨0, 0, 0, 0, 0⟩⟩

/-- Embedding of `clusters.rs::ClusterEndpoints`: the two 256-bit endpoint
bitsets are modelled as natural-number bitmasks.  The source intersects the
sets 64-bit block by block; some block ANDing to nonzero is the same as the
AND of the whole masks being nonzero. -/
structure ClusterEndpoints where
  probe : ℕ
  gallery : ℕ
deriving DecidableEq

instance : Inhabited ClusterEndpoints := ⟨⟨0, 0⟩⟩

/-- Embedding of `clusters.rs::ClusterSimilar`. -/
structure ClusterSimilar where
  points : ℕ
  compatible_clusters : List ℕ
  points_including_compatible_clusters : ℕ
deriving DecidableEq

instance : Inhabited ClusterSimilar := ⟨⟨0, [], 0⟩⟩

/-- Embedding of `clusters.rs::Clusters` (four parallel arrays). -/
structure Clusters where
  similar : List ClusterSimilar
  averages : List ClusterAverages
  endpoints : List ClusterEndpoints
  pairs : List (List ℕ)
deriving DecidableEq

/-- A `Clusters` value after `Clusters::clear` (or fresh allocation). -/
def Clusters.empty : Clusters := ⟨[], [], [], []⟩

/-- Embedding of `clusters.rs::Clusters::push`. -/
def Clusters.push (cs : Clusters) (c : ClusterSimilar) (av : ClusterAverages)
    (ep : ClusterEndpoints) (selected : List ℕ) : Clusters :=
  ⟨cs.similar ++ [c], cs.averages ++ [av], cs.endpoints ++ [ep], cs.pairs ++ [selected]⟩

/-- Embedding of `clusters.rs::are_clusters_compatible`.  The two `f32`
quantities of the length test are modelled over ℚ (see `factor`), and the
arctangent inside `calculate_slope_in_degrees` stays abstracted as
`atanDeg`.  No theorem below depends on the Boolean outcome of this
predicate, and no concrete evaluation in this file reaches it. -/
def are_clusters_compatible (atanDeg : ℚ → ℚ) (averages1 averages2 : ClusterAverages)
    (format : Format) : Bool :=
  if !are_angles_equal_with_tolerance averages2.delta_theta averages1.delta_theta then
    false
  else
    let probe_dx := averages2.probe_x - averages1.probe_x
    let probe_dy := averages2.probe_y - averages1.probe_y
    let gallery_dx := averages2.gallery_x - averages1.gallery_x
    let gallery_dy := averages2.gallery_y - averages1.gallery_y
    let probe_distance_squared := probe_dx ^ 2 + probe_dy ^ 2
    let gallery_distance_squared := gallery_dx ^ 2 + gallery_dy ^ 2
    let a : ℚ := 2 * factor * ((probe_distance_squared + gallery_distance_squared : ℤ) : ℚ)
    let b : ℚ := |((probe_distance_squared - gallery_distance_squared : ℤ) : ℚ)|
    if a < b then false
    else
      let average := average_angles averages1.delta_theta averages2.delta_theta
      let difference :=
        match format with
        | .NistInternal =>
            calculate_slope_in_degrees atanDeg probe_dx probe_dy
              - calculate_slope_in_degrees atanDeg gallery_dx gallery_dy
        | .Ansi =>
            calculate_slope_in_degrees atanDeg probe_dx (-probe_dy)
              - calculate_slope_in_degrees atanDeg gallery_dx (-gallery_dy)
      are_angles_equal_with_tolerance average (normalize_angle difference)

/-- Embedding of `clusters.rs::have_common_endpoints`. -/
def have_common_endpoints (first second : ClusterEndpoints) : Bool :=
  (Nat.land first.probe second.probe != 0) ||
    (Nat.land first.gallery second.gallery != 0)

/-- The list of later-indexed disjoint compatible clusters collected by the
inner loop of `find_compatible_disjoint_clusters_and_accumulate_points`
(`for other_cluster in cluster + 1..clusters.similar.len()`). -/
def compatible_clusters_for (atanDeg : ℚ → ℚ) (cs : Clusters) (format : Format)
    (cluster : ℕ) : List ℕ :=
  (List.range' (cluster + 1) (cs.similar.length - (cluster + 1))).filter (fun other =>
    !have_common_endpoints (cs.endpoints.getD cluster default)
        (cs.endpoints.getD other default) &&
      are_clusters_compatible atanDeg (cs.averages.getD cluster default)
        (cs.averages.getD other default) format)

/-- Embedding of
`clusters.rs::find_compatible_disjoint_clusters_and_accumulate_points`.
The source writes each cluster's two derived fields in place while
iterating; the loop never reads those fields of any cluster, so the
in-place mutation is equivalent to this per-index rebuild. -/
def find_compatible_disjoint_clusters_and_accumulate_points (atanDeg : ℚ → ℚ)
    (cs : Clusters) (format : Format) : Clusters :=
  { cs with
    similar := (List.range cs.similar.length).map (fun cluster =>
      let c := cs.similar.getD cluster default
      let compatible := compatible_clusters_for atanDeg cs format cluster
      { points := c.points,
        compatible_clusters := compatible,
        points_including_compatible_clusters :=
          c.points
            + (compatible.map (fun other => (cs.similar.getD other default).points)).sum }) }

/-- Compatibility list of one cluster (field access helper). -/
def compatOf (cs : Clusters) (cluster : ℕ) : List ℕ :=
  (cs.similar.getD cluster default).compatible_clusters

/-- Point count of one cluster (field access helper). -/
def cluster_points (cs : Clusters) (cluster : ℕ) : ℕ :=
  (cs.similar.getD cluster default).points

/-- Well-formedness of the cluster compatibility graph: each compatibility
list is strictly increasing, contains only larger in-range indices, and the
precomputed `points_including_compatible_clusters` dominates `points`.
`find_compatible_disjoint_clusters_and_accumulate_points` establishes this
(proved below). -/
def compat_wf (cs : Clusters) : Prop :=
  ∀ cluster, (compatOf cs cluster).Pairwise (· < ·) ∧
    (∀ other ∈ compatOf cs cluster, cluster < other ∧ other < cs.similar.length) ∧
    cluster_points cs cluster
      ≤ (cs.similar.getD cluster default).points_including_compatible_clusters

/-- One DFS frame of `clusters.rs::combine_clusters`, in recursive form.
The explicit stack of the source maps to recursion: each frame holds its
cluster and the snapshot `connected` of reachable clusters; a frame whose
`connected` list is empty computes, when exhausted (immediately), the score
of the whole stack (`path` plus its own cluster) and updates the best pair;
a frame with a non-empty `connected` list explores each child in order with
the sorted intersection of its own `connected` and the child's
compatibility list, and contributes no score itself.  `depth` bounds the
recursion depth: every descent strictly shrinks `connected` whenever no
index appears in its own compatibility list (true of all outputs of
`find_compatible_disjoint_clusters_and_accumulate_points`), so the
top-level depth `cs.similar.length + 1` is never exhausted; on a malformed
cyclic graph the source would recurse forever and the model truncates
instead. -/
def combine_level (cs : Clusters) (collect_compatible_clusters : Bool) :
    ℕ → List ℕ → ℕ → List ℕ → ℕ × List ℕ → ℕ × List ℕ
  | 0, _, _, _, acc => acc
  | depth + 1, path, cluster, connected, acc =>
    if connected.isEmpty then
      let score := ((path ++ [cluster]).map (cluster_points cs)).sum
      if acc.1 < score then
        (score,
          if collect_compatible_clusters then
            dedup_sorted
              (((path ++ [cluster]).flatMap (compatOf cs)).insertionSort (· ≤ ·))
          else acc.2)
      else acc
    else
      connected.foldl (fun acc2 next =>
        combine_level cs collect_compatible_clusters depth (path ++ [cluster]) next
          (intersection_of_sorted connected (compatOf cs next)) acc2) acc

/-- Embedding of `clusters.rs::combine_clusters`: the seeding loop over all
clusters with the `best_score ≥ points_including_compatible_clusters`
pruning, around the DFS of `combine_level`. -/
def combine_clusters (cs : Clusters) (collect_compatible_clusters : Bool) :
    ℕ × List ℕ :=
  (List.range cs.similar.length).foldl (fun acc cluster =>
    if (cs.similar.getD cluster default).points_including_compatible_clusters ≤ acc.1 then
      acc
    else
      combine_level cs collect_compatible_clusters (cs.similar.length + 1) [] cluster
        (compatOf cs cluster) acc) (0, [])

/-- Concrete one-cluster `Clusters` value used by the witness of claim C5. -/
def c5_w_cs : Clusters := ⟨[⟨5, [], 0⟩], [default], [default], [[0]]⟩

/-- Constant-zero stand-in for the abstracted slope arctangent, used by
concrete inputs (never evaluated on them). -/
def zeroAtan : ℚ → ℚ := fun _ => 0

instance {ε α : Type} [DecidableEq ε] [DecidableEq α] : DecidableEq (Except ε α) :=
  fun a b =>
    match a, b with
    | .error e1, .error e2 =>
      if h : e1 = e2 then .isTrue (by rw [h]) else .isFalse (by simp [h])
    | .ok v1, .ok v2 =>
      if h : v1 = v2 then .isTrue (by rw [h]) else .isFalse (by simp [h])
    | .error _, .ok _ => .isFalse (by simp)
    | .ok _, .error _ => .isFalse (by simp)

/-! ## Pair index (`pair_holder.rs`)

The `dirty` flag of the source is pure bookkeeping (an assertion that
`prepare` ran) and is not modelled; `prepare` constructs the two orderings,
and the dense range caches are recomputed from them on demand, which yields
the same values `prepare` stores.
-/

structure PairHolder where
  forward : List Pair
  backward : List ℕ
deriving DecidableEq

/-- Embedding of `pair_holder.rs::get`. -/
def PairHolder.get (ph : PairHolder) (index : ℕ) : Pair :=
  ph.forward.getD index default

/-- The key `probe_k * MAX_NUMBER_OF_MINUTIAE + gallery_k` of the forward
range cache. -/
def pair_first_key (p : Pair) : ℕ :=
  p.probe_k * MAX_NUMBER_OF_MINUTIAE + p.gallery_k

/-- The key `probe_j * MAX_NUMBER_OF_MINUTIAE + gallery_j` of the backward
range cache. -/
def pair_second_key (p : Pair) : ℕ :=
  p.probe_j * MAX_NUMBER_OF_MINUTIAE + p.gallery_j

/-- Embedding of `pair_holder.rs::make_range_cache`: the fold records, at
each key change, the half-open range of the just-finished run, and finally
the last run.  The dense range array is modelled as a total map. -/
def make_range_cache (keys : List ℕ) : ℕ → Option (ℕ × ℕ) :=
  let step := fun (st : Option ℕ × ℕ × (ℕ → Option (ℕ × ℕ))) (p : ℕ × ℕ) =>
    match st.1 with
    | some index =>
      if index ≠ p.2 then
        (some p.2, p.1, fun key => if key = index then some (st.2.1, p.1) else st.2.2 key)
      else st
    | none => (some p.2, st.2.1, st.2.2)
  let res := keys.enum.foldl step (none, 0, fun _ => none)
  match res.1 with
  | some index =>
    fun key => if key = index then some (res.2.1, keys.length) else res.2.2 key
  | none => res.2.2

def PairHolder.forward_ranges (ph : PairHolder) : ℕ → Option (ℕ × ℕ) :=
  make_range_cache (ph.forward.map pair_first_key)

def PairHolder.backward_ranges (ph : PairHolder) : ℕ → Option (ℕ × ℕ) :=
  make_range_cache (ph.backward.map (fun index =>
    pair_second_key (ph.forward.getD index default)))

/-- Embedding of `pair_holder.rs::left_trim_range`. -/
def left_trim_range (range : ℕ × ℕ) (offset : ℕ) : ℕ × ℕ :=
  if range.1 ≤ offset ∧ offset < range.2 then (offset, range.2)
  else if range.2 ≤ offset then (range.2, range.2)
  else range

/-- Embedding of `pair_holder.rs::find_pairs_by_first_endpoint`.  The lazy
iterator reads only the immutable pair table, so it is materialized as the
list of (index, probe_j, gallery_j) triples. -/
def PairHolder.find_pairs_by_first_endpoint (ph : PairHolder) (offset : ℕ)
    (probe_endpoint gallery_endpoint : ℕ) : List (ℕ × ℕ × ℕ) × ℕ :=
  let range0 := (ph.forward_ranges
    (probe_endpoint * MAX_NUMBER_OF_MINUTIAE + gallery_endpoint)).getD (offset, offset)
  let range := left_trim_range range0 offset
  ((List.range' range.1 (range.2 - range.1)).map (fun index =>
      (index, (ph.get index).probe_j, (ph.get index).gallery_j)),
    range.2)

/-- Embedding of `pair_holder.rs::find_pairs_by_second_endpoint` (the
`skip_while` of the source is `dropWhile`). -/
def PairHolder.find_pairs_by_second_endpoint (ph : PairHolder) (offset : ℕ)
    (probe_endpoint gallery_endpoint : ℕ) : List (ℕ × ℕ × ℕ) × ℕ :=
  let range := (ph.backward_ranges
    (probe_endpoint * MAX_NUMBER_OF_MINUTIAE + gallery_endpoint)).getD (offset, offset)
  let slice := (ph.backward.drop range.1).take (range.2 - range.1)
  let entries := slice.dropWhile (fun it => it < offset)
  (entries.map (fun it => (it, (ph.get it).probe_k, (ph.get it).gallery_k)), range.2)

/-- Lexicographic order on (probe_k, gallery_k, probe_j), the forward sort
key of `prepare`. -/
def pair_forward_le (a b : Pair) : Prop :=
  a.probe_k < b.probe_k ∨ (a.probe_k = b.probe_k ∧
    (a.gallery_k < b.gallery_k ∨ (a.gallery_k = b.gallery_k ∧ a.probe_j ≤ b.probe_j)))

instance : DecidableRel pair_forward_le := fun a b => by
  unfold pair_forward_le
  infer_instance

/-- Lexicographic order on (probe_j, gallery_j) of the indexed forward
pairs, the backward sort key of `prepare`. -/
def pair_backward_le (forward : List Pair) (i j : ℕ) : Prop :=
  (forward.getD i default).probe_j < (forward.getD j default).probe_j ∨
    ((forward.getD i default).probe_j = (forward.getD j default).probe_j ∧
      (forward.getD i default).gallery_j ≤ (forward.getD j default).gallery_j)

instance (forward : List Pair) : DecidableRel (pair_backward_le forward) := fun i j => by
  unfold pair_backward_le
  infer_instance

/-- Embedding of `pair_holder.rs::prepare` applied to the pushed pairs.
Rust's `sort_by_key` is stable; it is modelled by (stable) insertion sort,
and a stable sort by a key has a unique result. -/
def PairHolder.prepare (raw : List Pair) : PairHolder :=
  let forward := raw.insertionSort pair_forward_le
  ⟨forward, (List.range forward.length).insertionSort (pair_backward_le forward)⟩

/-! ## Association table (`associations.rs`)

The two fixed-size `u8` arrays (0 = empty, k + 1 = partner k; endpoints are
below 200, so the `u8` cast never truncates) are modelled as total maps.
Clearing the whole table yields the constant-zero maps.
-/

structure EndpointAssociations where
  probe_by_gallery : ℕ → ℕ
  gallery_by_probe : ℕ → ℕ

def EndpointAssociations.new : EndpointAssociations :=
  ⟨fun _ => 0, fun _ => 0⟩

def EndpointAssociations.associate (a : EndpointAssociations)
    (probe_endpoint gallery_endpoint : ℕ) : EndpointAssociations :=
  ⟨fun g => if g = gallery_endpoint then probe_endpoint + 1 else a.probe_by_gallery g,
   fun p => if p = probe_endpoint then gallery_endpoint + 1 else a.gallery_by_probe p⟩

def EndpointAssociations.clear_by_probe (a : EndpointAssociations)
    (probe_endpoint : ℕ) : EndpointAssociations :=
  let value := a.gallery_by_probe probe_endpoint
  if value ≠ 0 then
    ⟨fun g => if g = value - 1 then 0 else a.probe_by_gallery g,
     fun p => if p = probe_endpoint then 0 else a.gallery_by_probe p⟩
  else a

def EndpointAssociations.get_associated_by_gallery (a : EndpointAssociations)
    (gallery_endpoint : ℕ) : Option ℕ :=
  let endpoint := a.probe_by_gallery gallery_endpoint
  if endpoint ≠ 0 then some (endpoint - 1) else none

def EndpointAssociations.get_associated_by_probe (a : EndpointAssociations)
    (probe_endpoint : ℕ) : Option ℕ :=
  let endpoint := a.gallery_by_probe probe_endpoint
  if endpoint ≠ 0 then some (endpoint - 1) else none

inductive EndpointRelation
  | Unassociated
  | MutuallyAssociated
  | AssociatedToOther
deriving DecidableEq

/-- Embedding of `associations.rs::get_status`. -/
def EndpointAssociations.get_status (a : EndpointAssociations)
    (probe_endpoint gallery_endpoint : ℕ) : EndpointRelation :=
  let associated_gallery := a.gallery_by_probe probe_endpoint
  let associated_probe := a.probe_by_gallery gallery_endpoint
  if associated_gallery = 0 ∧ associated_probe = 0 then .Unassociated
  else if associated_gallery = gallery_endpoint + 1
      ∧ associated_probe = probe_endpoint + 1 then .MutuallyAssociated
  else .AssociatedToOther

/-! ## Cluster assigner (`clusters.rs::ClusterAssigner`) -/

/-- Value written by `unassign` in strict mode (`u32::max_value()`). -/
def MARKER_UNASSIGNED : ℕ := 4294967295

/-- Embedding of `clusters.rs::ClusterAssigner` (the fixed-size `u32` array
`cluster_by_pair`, 0 = unassigned, c + 1 = cluster c, as a total map). -/
structure ClusterAssigner where
  cluster_by_pair : ℕ → ℕ

def ClusterAssigner.new : ClusterAssigner := ⟨fun _ => 0⟩

def ClusterAssigner.get_cluster (c : ClusterAssigner) (pair_index : ℕ) : Option ℕ :=
  let cluster := c.cluster_by_pair pair_index
  if cluster = 0 then none else some (cluster - 1)

def ClusterAssigner.assign (c : ClusterAssigner) (pair_index cluster : ℕ) : ClusterAssigner :=
  ⟨fun p => if p = pair_index then cluster + 1 else c.cluster_by_pair p⟩

def ClusterAssigner.unassign (c : ClusterAssigner) (pair_index : ℕ) : ClusterAssigner :=
  ⟨fun p => if p = pair_index then (if is_strict_mode then MARKER_UNASSIGNED else 0)
    else c.cluster_by_pair p⟩

/-! ## Groups (`groups.rs`) -/

inductive FingerprintKind
  | Probe
  | Gallery
deriving DecidableEq

/-- Embedding of `groups.rs::EndpointGroup`. -/
structure EndpointGroup where
  endpoint : ℕ
  endpoint_source : FingerprintKind
  matching_endpoints : List ℕ
  endpoint_index : ℕ
  last_associated_from_probe : Option ℕ
deriving DecidableEq

instance : Inhabited EndpointGroup := ⟨⟨0, .Probe, [], 0, none⟩⟩

/-- Embedding of `groups.rs::merge_endpoints_into_group`. -/
def merge_endpoints_into_group (groups : List EndpointGroup)
    (endpoint_source : FingerprintKind) (endpoint existing_endpoint new_endpoint : ℕ) :
    List EndpointGroup :=
  if ¬is_strict_mode ∧ groups.length = max_number_of_groups then groups
  else
    match groups.findIdx? (fun g =>
        g.endpoint_source == endpoint_source && g.endpoint == endpoint) with
    | some i =>
      let g := groups.getD i default
      if new_endpoint ∈ g.matching_endpoints then groups
      else groups.set i { g with matching_endpoints := g.matching_endpoints ++ [new_endpoint] }
    | none =>
      let fresh : EndpointGroup :=
        { endpoint := endpoint, endpoint_source := endpoint_source,
          matching_endpoints := [existing_endpoint, new_endpoint], endpoint_index := 0,
          last_associated_from_probe :=
            if is_strict_mode then none else some existing_endpoint }
      groups ++ [fresh]

/-- Embedding of `groups.rs::cleanup_associations` (each remembered
provisional association is cleared and forgotten, in group order). -/
def cleanup_associations (groups : List EndpointGroup)
    (associator : EndpointAssociations) : List EndpointGroup × EndpointAssociations :=
  groups.foldl (fun st g =>
    match g.last_associated_from_probe with
    | some probe =>
      (st.1 ++ [{ g with last_associated_from_probe := none }], st.2.clear_by_probe probe)
    | none => (st.1 ++ [g], st.2)) ([], associator)

/-- Loop of `groups.rs::try_associate_current_endpoints` over the group
indices in reverse (`k + 1` processes index `k`); a conflict aborts with
the partial mutations kept, exactly as the early `return false` does. -/
def try_associate_go : ℕ → List EndpointGroup → EndpointAssociations →
    Bool × List EndpointGroup × EndpointAssociations
  | 0, groups, associator => (true, groups, associator)
  | k + 1, groups, associator =>
    let g := groups.getD k default
    let endpoints : ℕ × ℕ :=
      match g.endpoint_source with
      | .Probe => (g.endpoint, g.matching_endpoints.getD g.endpoint_index 0)
      | .Gallery => (g.matching_endpoints.getD g.endpoint_index 0, g.endpoint)
    match associator.get_status endpoints.1 endpoints.2 with
    | .Unassociated =>
      try_associate_go k
        (groups.set k { g with last_associated_from_probe := some endpoints.1 })
        (associator.associate endpoints.1 endpoints.2)
    | .MutuallyAssociated =>
      try_associate_go k
        (if is_strict_mode then
          groups.set k { g with last_associated_from_probe := some endpoints.1 }
        else groups)
        associator
    | .AssociatedToOther => (false, groups, associator)

def try_associate_current_endpoints (groups : List EndpointGroup)
    (associator : EndpointAssociations) : Bool × List EndpointGroup × EndpointAssociations :=
  try_associate_go groups.length groups associator

/-- Odometer loop of `groups.rs::find_next_not_conflicting_associations`:
`k + 1` examines the group at index `k`; a successful increment either
returns or restarts the reverse scan from the rearmost group, an exhausted
group resets to 0 and the scan moves on.  Every step consumes fuel; the
caller passes a fuel that the bounded odometer never exhausts on the
concrete runs below. -/
def find_next_go : ℕ → ℕ → List EndpointGroup → EndpointAssociations →
    Bool × List EndpointGroup × EndpointAssociations
  | 0, _, groups, associator => (false, groups, associator)
  | _ + 1, 0, groups, associator => (false, groups, associator)
  | fuel + 1, k + 1, groups, associator =>
    let g := groups.getD k default
    if g.endpoint_index + 1 < g.matching_endpoints.length then
      let groups2 := groups.set k { g with endpoint_index := g.endpoint_index + 1 }
      match try_associate_current_endpoints groups2 associator with
      | (true, groups3, associator3) => (true, groups3, associator3)
      | (false, groups3, associator3) =>
        let st := cleanup_associations groups3 associator3
        find_next_go fuel st.1.length st.1 st.2
    else find_next_go fuel k (groups.set k { g with endpoint_index := 0 }) associator

def find_next_not_conflicting_associations (fuel : ℕ) (groups : List EndpointGroup)
    (associator : EndpointAssociations) : Bool × List EndpointGroup × EndpointAssociations :=
  let st := cleanup_associations groups associator
  find_next_go fuel st.1.length st.1 st.2

/-! ## Engine state and seed loop (`bozorth.rs`) -/

/-- Embedding of `bozorth.rs::BozorthState`. -/
structure BozorthState where
  clusters : Clusters
  associator : EndpointAssociations
  assigner : ClusterAssigner
  groups : List EndpointGroup
  selected_pairs : List ℕ

/-- Embedding of `BozorthState::new`; `BozorthState::clear` produces the
same state (all arrays zeroed, all vectors emptied). -/
def BozorthState.new : BozorthState :=
  ⟨Clusters.empty, EndpointAssociations.new, ClusterAssigner.new, [], []⟩

def BozorthState.clear (_ : BozorthState) : BozorthState := BozorthState.new

def MINIMAL_NUMBER_OF_MINUTIA : ℕ := 10

/-- Embedding of `bozorth.rs::calculate_points`. -/
def calculate_points (pairs : PairHolder) (selected_pairs : List ℕ) : ℕ :=
  (selected_pairs.map (fun it => (pairs.get it).points)).sum

/-- Embedding of `bozorth.rs::calculate_average_delta_theta_for_pairs`. -/
def calculate_average_delta_theta_for_pairs (selected_pairs : List ℕ)
    (pairs : PairHolder) : ℤ :=
  (selected_pairs.foldl (fun averager pair => averager.push (pairs.get pair).delta_theta)
    Averager.new).average

/-- Embedding of `bozorth.rs::filter_selected` (`Vec::retain`). -/
def filter_selected (selected_pairs : List ℕ) (pairs : PairHolder) : List ℕ :=
  let average := calculate_average_delta_theta_for_pairs selected_pairs pairs
  selected_pairs.filter (fun pair =>
    are_angles_equal_with_tolerance (pairs.get pair).delta_theta average)

/-- Embedding of `bozorth.rs::cleanup_selected`. -/
def cleanup_selected (assigner : ClusterAssigner) (selected_pairs : List ℕ) :
    ClusterAssigner :=
  selected_pairs.foldl (fun a pair => a.unassign pair) assigner

/-- Embedding of `clusters.rs::calculate_averages`.  The coordinate sums are
divided by the selected count with Rust's truncating `i32` division,
`Int.div`; the δθ average uses the same `Averager` as the source. -/
def calculate_averages (probe_minutiae gallery_minutiae : List Minutia)
    (pairs : PairHolder) (selected_pairs : List ℕ) : ClusterAverages :=
  let sums : ℤ × ℤ × ℤ × ℤ := selected_pairs.foldl (fun acc pair_index =>
    let pair := pairs.get pair_index
    (acc.1 + (probe_minutiae.getD pair.probe_k default).x,
     acc.2.1 + (probe_minutiae.getD pair.probe_k default).y,
     acc.2.2.1 + (gallery_minutiae.getD pair.gallery_k default).x,
     acc.2.2.2 + (gallery_minutiae.getD pair.gallery_k default).y)) (0, 0, 0, 0)
  let averager := selected_pairs.foldl (fun averager pair_index =>
    averager.push (pairs.get pair_index).delta_theta) Averager.new
  { delta_theta := averager.average,
    probe_x := Int.tdiv sums.1 (selected_pairs.length : ℤ),
    probe_y := Int.tdiv sums.2.1 (selected_pairs.length : ℤ),
    gallery_x := Int.tdiv sums.2.2.1 (selected_pairs.length : ℤ),
    gallery_y := Int.tdiv sums.2.2.2 (selected_pairs.length : ℤ) }

/-- Embedding of `clusters.rs::encode_selected_endpoints` over the bitmask
model of the endpoint sets. -/
def encode_selected_endpoints (pairs : PairHolder) (selected : List ℕ) :
    ClusterEndpoints :=
  selected.foldl (fun acc idx =>
    let pair := pairs.get idx
    { probe := acc.probe ||| 2 ^ pair.probe_k ||| 2 ^ pair.probe_j,
      gallery := acc.gallery ||| 2 ^ pair.gallery_k ||| 2 ^ pair.gallery_j })
    ⟨0, 0⟩

/-- Conflict arm of `bozorth.rs::assign_cluster_to_endpoints` (the
catch-all match arm creating or extending groups). -/
def assign_conflict (existing_gallery_endpoint existing_probe_endpoint : Option ℕ)
    (probe_endpoint gallery_endpoint : ℕ) (state : BozorthState)
    (to_visit : List (ℕ × ℕ)) : BozorthState × List (ℕ × ℕ) :=
  if is_strict_mode ∧ max_number_of_groups ≤ state.groups.length then (state, to_visit)
  else
    let groups1 := match existing_gallery_endpoint with
      | some endpoint => merge_endpoints_into_group state.groups .Probe probe_endpoint
          endpoint gallery_endpoint
      | none => state.groups
    let groups2 := match existing_probe_endpoint with
      | some endpoint => merge_endpoints_into_group groups1 .Gallery gallery_endpoint
          endpoint probe_endpoint
      | none => groups1
    ({ state with groups := groups2 }, to_visit)

/-- Embedding of `bozorth.rs::assign_cluster_to_endpoints`.  The strict-mode
worklist-duplicate check of the mutual arm compares probe endpoints against
the PAIR INDEX, reproducing the quirk the source keeps for
bit-compatibility. -/
def assign_cluster_to_endpoints (cluster pair_index probe_endpoint gallery_endpoint : ℕ)
    (state : BozorthState) (to_visit : List (ℕ × ℕ)) : BozorthState × List (ℕ × ℕ) :=
  match state.associator.get_associated_by_probe probe_endpoint,
        state.associator.get_associated_by_gallery gallery_endpoint with
  | none, none =>
    let state := if state.assigner.get_cluster pair_index ≠ some cluster then
        { state with selected_pairs := state.selected_pairs ++ [pair_index],
                     assigner := state.assigner.assign pair_index cluster }
      else state
    ({ state with associator := state.associator.associate probe_endpoint gallery_endpoint },
      to_visit ++ [(probe_endpoint, gallery_endpoint)])
  | some endpoint, some existing_probe =>
    if endpoint = gallery_endpoint then
      if state.assigner.get_cluster pair_index = some cluster then (state, to_visit)
      else
        let state := { state with
          selected_pairs := state.selected_pairs ++ [pair_index],
          assigner := state.assigner.assign pair_index cluster }
        if is_strict_mode then
          if to_visit.all (fun e => e.1 ≠ pair_index) then
            (state, to_visit ++ [(probe_endpoint, gallery_endpoint)])
          else (state, to_visit)
        else (state, to_visit)
    else
      assign_conflict (some endpoint) (some existing_probe) probe_endpoint
        gallery_endpoint state to_visit
  | eg, ep =>
    assign_conflict eg ep probe_endpoint gallery_endpoint state to_visit

/-- Worklist loop of `bozorth.rs::traverse_edges`; the cursor walks the
growing `to_visit` queue.  Each entry consumes one fuel; the fuel passed by
the concrete runs below is never exhausted (the queue length is bounded by
the pair count plus the endpoint count). -/
def traverse_loop (pairs : PairHolder) (start : Pair)
    (next_not_connected cluster_index : ℕ) :
    ℕ → ℕ → BozorthState → List (ℕ × ℕ) → BozorthState × List (ℕ × ℕ)
  | 0, _, state, to_visit => (state, to_visit)
  | fuel + 1, cursor, state, to_visit =>
    if cursor < to_visit.length then
      let entry := to_visit.getD cursor (0, 0)
      let second := pairs.find_pairs_by_second_endpoint next_not_connected entry.1 entry.2
      let st1 := second.1.foldl (fun st t =>
        if t.2.1 ≠ start.probe_k ∧ t.2.2 ≠ start.gallery_k then
          assign_cluster_to_endpoints cluster_index t.1 t.2.1 t.2.2 st.1 st.2
        else st) (state, to_visit)
      let first := pairs.find_pairs_by_first_endpoint next_not_connected entry.1 entry.2
      let st2 := first.1.foldl (fun st t =>
        assign_cluster_to_endpoints cluster_index t.1 t.2.1 t.2.2 st.1 st.2) st1
      traverse_loop pairs start next_not_connected cluster_index fuel (cursor + 1) st2.1 st2.2
    else (state, to_visit)

/-- Embedding of `bozorth.rs::traverse_edges`. -/
def traverse_edges (fuel : ℕ) (pairs : PairHolder) (start_pair cluster_index : ℕ)
    (state : BozorthState) : BozorthState :=
  let start := pairs.get start_pair
  let init := pairs.find_pairs_by_first_endpoint start_pair start.probe_k start.gallery_k
  let st0 := init.1.foldl (fun st t =>
    assign_cluster_to_endpoints cluster_index t.1 t.2.1 t.2.2 st.1 st.2) (state, [])
  let res := traverse_loop pairs start init.2 cluster_index fuel 0 st0.1 st0.2
  res.2.foldl (fun st entry =>
    { st with associator := st.associator.clear_by_probe entry.1 }) res.1

/-- Embedding of `bozorth.rs::maybe_create_cluster`. -/
def maybe_create_cluster (fuel : ℕ) (probe_minutiae gallery_minutiae : List Minutia)
    (pairs : PairHolder) (start_pair : ℕ) (state : BozorthState) : BozorthState :=
  let new_cluster_index := state.clusters.similar.length
  let state := { state with selected_pairs := [] }
  let state := traverse_edges fuel pairs start_pair new_cluster_index state
  let state := if min_number_of_pairs_to_build_cluster ≤ state.selected_pairs.length then
      { state with selected_pairs := filter_selected state.selected_pairs pairs }
    else state
  if state.selected_pairs.length < min_number_of_pairs_to_build_cluster then
    { state with assigner := cleanup_selected state.assigner state.selected_pairs }
  else
    let similar : ClusterSimilar :=
      { points := calculate_points pairs state.selected_pairs,
        compatible_clusters := [],
        points_including_compatible_clusters := 0 }
    let clusters := state.clusters.push similar
      (calculate_averages probe_minutiae gallery_minutiae pairs state.selected_pairs)
      (encode_selected_endpoints pairs state.selected_pairs)
      state.selected_pairs
    { state with clusters := clusters }

/-- Inner `loop` of the seed loop of `match_score`: grow clusters for one
seed until the cluster cap fires or the group backtracker is exhausted. -/
def seed_inner_loop (fuel : ℕ) (probe_minutiae gallery_minutiae : List Minutia)
    (pairs : PairHolder) (start_pair : ℕ) : ℕ → BozorthState → BozorthState
  | 0, state => state
  | gas + 1, state =>
    let state := maybe_create_cluster fuel probe_minutiae gallery_minutiae pairs
      start_pair state
    if max_number_of_clusters - 1 < state.clusters.similar.length then state
    else
      match find_next_not_conflicting_associations fuel state.groups state.associator with
      | (false, groups, associator) =>
        { state with groups := groups, associator := associator }
      | (true, groups, associator) =>
        seed_inner_loop fuel probe_minutiae gallery_minutiae pairs start_pair gas
          { state with groups := groups, associator := associator }

/-- Seed loop of `bozorth.rs::match_score` over the listed pair indices. -/
def seed_loop_go (fuel : ℕ) (probe_minutiae gallery_minutiae : List Minutia)
    (pairs : PairHolder) : List ℕ → BozorthState → BozorthState
  | [], state => state
  | start_pair_index :: rest, state =>
    if (state.assigner.get_cluster start_pair_index).isSome then
      seed_loop_go fuel probe_minutiae gallery_minutiae pairs rest state
    else
      let start_pair := pairs.get start_pair_index
      let state := { state with
        associator := state.associator.associate start_pair.probe_k start_pair.gallery_k,
        groups := [] }
      let state := seed_inner_loop fuel probe_minutiae gallery_minutiae pairs
        start_pair_index fuel state
      if max_number_of_clusters - 1 < state.clusters.similar.length then state
      else
        seed_loop_go fuel probe_minutiae gallery_minutiae pairs rest
          { state with associator := state.associator.clear_by_probe start_pair.probe_k }

/-- The seed loop of `match_score`; in strict mode the last pair is not
seeded (`take(pairs.len() - 1)`, with Rust release-mode wrapping modelled by
ℕ-subtraction, which agrees for every non-empty pair list). -/
def seed_loop (fuel : ℕ) (probe_minutiae gallery_minutiae : List Minutia)
    (pairs : PairHolder) (state : BozorthState) : BozorthState :=
  seed_loop_go fuel probe_minutiae gallery_minutiae pairs
    (List.range (if is_strict_mode then pairs.forward.length - 1 else pairs.forward.length))
    state

/-- The `max_by_key` block of `match_score` computing the preliminary best
(`points_including_compatible_clusters`, seed-plus-compatible id list);
Rust's `max_by_key` keeps the LAST maximum, hence the `≤` in the fold. -/
def preliminary_score (cs : Clusters) : ℕ × List ℕ :=
  let items := (List.range cs.similar.length).map (fun idx =>
    ((cs.similar.getD idx default).points_including_compatible_clusters,
      idx :: (cs.similar.getD idx default).compatible_clusters))
  match items with
  | [] => (0, [])
  | first :: rest => rest.foldl (fun best item => if best.1 ≤ item.1 then item else best) first

/-- Embedding of `bozorth.rs::match_score`.  The mutated `&mut BozorthState`
becomes the second component of the result; the `debug_assert!` on
non-empty pairs is compiled out in release builds and is not modelled.
Note the final combine pass is invoked with
`collect_compatible_clusters = false`, as in the source. -/
def match_score (fuel : ℕ) (atanDeg : ℚ → ℚ) (pairs : PairHolder)
    (probe_minutiae gallery_minutiae : List Minutia) (format : Format)
    (state : BozorthState) : Except Unit (ℕ × List ℕ) × BozorthState :=
  if probe_minutiae.length < MINIMAL_NUMBER_OF_MINUTIA
      ∨ gallery_minutiae.length < MINIMAL_NUMBER_OF_MINUTIA then
    (Except.error (), state)
  else
    let st := state.clear
    let st := seed_loop fuel probe_minutiae gallery_minutiae pairs st
    let st := { st with clusters :=
      find_compatible_disjoint_clusters_and_accumulate_points atanDeg st.clusters format }
    let pre := preliminary_score st.clusters
    if pre.1 < score_threshold then (Except.ok pre, st)
    else (Except.ok (combine_clusters st.clusters false), st)

/-! ## Concrete inputs for the seed-loop claims -/

/-- Ten identical minutiae, enough to pass the minimum-count check. -/
def c2_pm : List Minutia := List.replicate 10 ⟨0, 0, 0, .Type0⟩

/-- Three pairs sharing first endpoints (0,0): one cluster of 9 points. -/
def c2_raw : List Pair :=
  [⟨0, 0, 0, 1, 1, 3⟩, ⟨0, 0, 0, 2, 2, 3⟩, ⟨0, 0, 0, 3, 3, 3⟩]

def c2_ph : PairHolder := PairHolder.prepare c2_raw

/-- Five pairs: three share first endpoints (0,0); pairs 3 and 4 share the
gallery endpoint 4, which creates a group, whose backtracking regrows a
second cluster reusing pairs 0, 1 and 2. -/
def c7_raw : List Pair :=
  [⟨0, 0, 0, 1, 1, 3⟩, ⟨0, 0, 0, 2, 2, 3⟩, ⟨0, 0, 0, 3, 3, 3⟩,
   ⟨0, 1, 1, 4, 4, 3⟩, ⟨0, 1, 1, 5, 4, 3⟩]

def c7_ph : PairHolder := PairHolder.prepare c7_raw

/-- State of the seed loop right after the seed association (0, 0) is made,
used by the witness of the amended claim C7. -/
def c7_w_state : BozorthState :=
  { BozorthState.new with associator := EndpointAssociations.new.associate 0 0 }

end Bozorth

namespace Bozorth

/-! ## Theorems about the angle mathematics -/

theorem roundQ_intCast (n : ℤ) : roundQ (n : ℚ) = n := by
  unfold roundQ
  rcases le_or_lt 0 (n : ℚ) with h | h
  · rw [if_pos h, Int.floor_eq_iff]
    constructor <;> linarith
  · rw [if_neg (not_le.mpr h), Int.ceil_eq_iff]
    constructor <;> linarith

theorem roundQ_mono {x y : ℚ} (h : x ≤ y) : roundQ x ≤ roundQ y := by
  unfold roundQ
  rcases le_or_lt 0 x with hx | hx
  · rw [if_pos hx, if_pos (hx.trans h)]
    exact Int.floor_le_floor (by linarith)
  · rcases le_or_lt 0 y with hy | hy
    · rw [if_neg (not_le.mpr hx), if_pos hy]
      have h1 : (⌈x - 1 / 2⌉ : ℤ) ≤ 0 := by
        have hx2 : x - 1 / 2 ≤ ((0 : ℤ) : ℚ) := by push_cast; linarith
        exact Int.ceil_le.mpr hx2
      have h2 : (0 : ℤ) ≤ ⌊y + 1 / 2⌋ := Int.floor_nonneg.mpr (by linarith)
      omega
    · rw [if_neg (not_le.mpr hx), if_neg (not_le.mpr hy)]
      exact Int.ceil_le_ceil (by linarith)

theorem roundQ_le_of_le {x : ℚ} {n : ℤ} (h : x ≤ (n : ℚ)) : roundQ x ≤ n :=
  (roundQ_mono h).trans_eq (roundQ_intCast n)

theorem le_roundQ_of_le {x : ℚ} {n : ℤ} (h : (n : ℚ) ≤ x) : n ≤ roundQ x :=
  (roundQ_intCast n).symm.trans_le (roundQ_mono h)

/-- Claim C9: for all integers a and b in (-180, 180], `average_angles a b`
lies in (-180, 180]; equivalently the range assertion inside
`Averager::average` never fires for such inputs. -/
theorem average_angles_c9_range (a b : ℤ) (ha1 : -180 < a) (ha2 : a ≤ 180)
    (hb1 : -180 < b) (hb2 : b ≤ 180) :
    -180 < average_angles a b ∧ average_angles a b ≤ 180 := by
  unfold average_angles Averager.new Averager.push
  rcases lt_or_le a 0 with ha | ha <;> rcases lt_or_le b 0 with hb | hb
  · rw [if_pos ha]
    simp only
    rw [if_pos hb]
    unfold Averager.average round_div
    dsimp only
    push_cast
    split_ifs <;> omega
  · rw [if_pos ha]
    simp only
    rw [if_neg (not_lt.mpr hb)]
    unfold Averager.average round_div
    dsimp only
    push_cast
    split_ifs <;> omega
  · rw [if_neg (not_lt.mpr ha)]
    simp only
    rw [if_pos hb]
    unfold Averager.average round_div
    dsimp only
    push_cast
    split_ifs <;> omega
  · rw [if_neg (not_lt.mpr ha)]
    simp only
    rw [if_neg (not_lt.mpr hb)]
    unfold Averager.average round_div
    dsimp only
    push_cast
    split_ifs <;> omega

/-- Witness for claim C9 at a concrete input. -/
theorem average_angles_c9_range_witness :
    -180 < average_angles 170 (-170) ∧ average_angles 170 (-170) ≤ 180 :=
  average_angles_c9_range 170 (-170) (by decide) (by decide) (by decide) (by decide)

/-- Claim C3 counterexample: `normalize_angle` applied to 541 yields 181,
which is outside (-180, 180], so the claim quantified over all integers is
false. -/
theorem normalize_angle_c3_counterexample :
    normalize_angle 541 = 181 ∧ ¬(normalize_angle 541 ≤ 180) := by decide

/-- Claim C3 (amended): `normalize_angle x` lies in (-180, 180] for all
integers x with -540 < x ≤ 540 (one fold of ±360 suffices exactly on this
interval); outside it the result can escape the interval, as the
counterexample at x = 541 shows. -/
theorem normalize_angle_c3_amended (x : ℤ) (h1 : -540 < x) (h2 : x ≤ 540) :
    -180 < normalize_angle x ∧ normalize_angle x ≤ 180 := by
  unfold normalize_angle
  split
  · omega
  · split <;> omega

/-- Witness for the amended claim C3 at a concrete input. -/
theorem normalize_angle_c3_amended_witness :
    -180 < normalize_angle 300 ∧ normalize_angle 300 ≤ 180 :=
  normalize_angle_c3_amended 300 (by decide) (by decide)

/-- Claim C8 counterexample: at a = -180, b = 0 the congruence
a ≡ b + 180 (mod 360) holds but `are_angles_opposite a b` is false, and the
function is not symmetric since `are_angles_opposite 0 (-180)` is true. -/
theorem are_angles_opposite_c8_counterexample :
    are_angles_opposite (-180) 0 = false ∧ Int.ModEq 360 (-180) (0 + 180) ∧
      are_angles_opposite 0 (-180) = true := by decide

/-- Claim C8 (amended): restricted to the angle domain (-180, 180] used by
the crate, `are_angles_opposite a b` holds iff a ≡ b + 180 (mod 360) and the
function is symmetric; over all of ℤ only the forward direction of the
equivalence survives (the counterexample at (-180, 0) breaks both the
converse and symmetry). -/
theorem are_angles_opposite_c8_amended (a b : ℤ) (ha1 : -180 < a) (ha2 : a ≤ 180)
    (hb1 : -180 < b) (hb2 : b ≤ 180) :
    (are_angles_opposite a b = true ↔ Int.ModEq 360 a (b + 180)) ∧
      are_angles_opposite a b = are_angles_opposite b a := by
  unfold are_angles_opposite
  unfold Int.ModEq
  constructor
  · split <;> simp only [beq_iff_eq] <;> omega
  · rw [Bool.eq_iff_iff]
    split <;> split <;> simp only [beq_iff_eq] <;> omega

/-- Witness for the amended claim C8 at a concrete input. -/
theorem are_angles_opposite_c8_amended_witness :
    (are_angles_opposite 90 (-90) = true ↔ Int.ModEq 360 90 (-90 + 180)) ∧
      are_angles_opposite 90 (-90) = are_angles_opposite (-90) 90 :=
  are_angles_opposite_c8_amended 90 (-90) (by decide) (by decide) (by decide) (by decide)

/-! ## Theorems about edge limiting (claim C4) -/

theorem getD_mem_of_lt {α : Type} [Inhabited α] (l : List α) (i : ℕ)
    (h : i < l.length) : l.getD i default ∈ l := by
  rw [List.getD_eq_getElem l default h]
  exact List.getElem_mem h

/-- In a list sorted by squared distance, the edges within the cutoff form
exactly the prefix of length `countP`. -/
theorem sorted_within_iff (edges : List Edge) (maxd : ℤ)
    (hs : edges.Sorted (fun a b => a.distance_squared ≤ b.distance_squared)) :
    ∀ i < edges.length,
      (within maxd (edges.getD i default) = true ↔ i < edges.countP (within maxd)) := by
  induction edges with
  | nil =>
    intro i hi
    simp at hi
  | cons e es ih =>
    rw [List.sorted_cons] at hs
    obtain ⟨he, hes⟩ := hs
    intro i hi
    by_cases hp : within maxd e = true
    · rcases i with _ | i
      · simp [List.countP_cons, hp]
      · rw [List.getD_cons_succ, List.countP_cons, if_pos hp]
        have hlen : i < es.length := by simpa using hi
        rw [ih hes i hlen]
        omega
    · have hzero : es.countP (within maxd) = 0 := by
        apply List.countP_eq_zero.mpr
        intro x hx
        have hle := he x hx
        unfold within at hp ⊢
        simp only [decide_eq_true_eq] at hp ⊢
        omega
      rcases i with _ | i
      · simp [List.countP_cons, hp, hzero]
      · rw [List.getD_cons_succ, List.countP_cons, if_neg hp]
        have hlen : i < es.length := by simpa using hi
        have hmem : es.getD i default ∈ es := getD_mem_of_lt es i hlen
        have hnot : ¬ within maxd (es.getD i default) = true := by
          have hle := he _ hmem
          unfold within at hp ⊢
          simp only [decide_eq_true_eq] at hp ⊢
          omega
        rw [hzero]
        exact iff_of_false hnot (by omega)

/-- The binary-search loop of `limit_edges_by_length` lands one past the
count of in-cutoff edges (the legacy off-by-one). -/
theorem limit_edges_by_length_go_eq (edges : List Edge) (maxd : ℤ)
    (hs : edges.Sorted (fun a b => a.distance_squared ≤ b.distance_squared)) :
    ∀ fuel lower upper, upper ≤ edges.length + 1 → lower < upper →
      upper - lower ≤ fuel → lower ≤ edges.countP (within maxd) →
      edges.countP (within maxd) < upper →
      limit_edges_by_length_go edges maxd fuel lower upper (lower + 1)
        = edges.countP (within maxd) + 1 := by
  intro fuel
  induction fuel with
  | zero =>
    intro lower upper h1 h2 h3 h4 h5
    omega
  | succ fuel ih =>
    intro lower upper h1 h2 h3 h4 h5
    rw [limit_edges_by_length_go]
    by_cases hgap : 1 < upper - lower
    · rw [if_pos hgap]
      have hmid1 : lower < (lower + upper) / 2 := by omega
      have hmid2 : (lower + upper) / 2 < upper := by omega
      have hmidn : (lower + upper) / 2 - 1 < edges.length := by omega
      have hiff := sorted_within_iff edges maxd hs ((lower + upper) / 2 - 1) hmidn
      by_cases hd : maxd < (edges.getD ((lower + upper) / 2 - 1) default).distance_squared
      · rw [if_pos hd]
        have hc : edges.countP (within maxd) < (lower + upper) / 2 := by
          by_contra hcon
          have hw : within maxd (edges.getD ((lower + upper) / 2 - 1) default) = true :=
            hiff.mpr (by omega)
          unfold within at hw
          simp only [decide_eq_true_eq] at hw
          omega
        exact ih lower ((lower + upper) / 2) (by omega) hmid1 (by omega) h4 hc
      · rw [if_neg hd]
        have hw : within maxd (edges.getD ((lower + upper) / 2 - 1) default) = true := by
          unfold within
          simp only [decide_eq_true_eq]
          omega
        have hc : (lower + upper) / 2 ≤ edges.countP (within maxd) := by
          have := hiff.mp hw
          omega
        exact ih ((lower + upper) / 2) upper h1 hmid2 (by omega) hc h5
    · rw [if_neg hgap]
      omega

/-- For sorted input, `limit_edges_by_length` equals the in-cutoff count
plus one, clamped to the number of edges. -/
theorem limit_edges_by_length_eq (edges : List Edge) (maxd : ℤ)
    (hs : edges.Sorted (fun a b => a.distance_squared ≤ b.distance_squared)) :
    limit_edges_by_length edges maxd
      = min (edges.countP (within maxd) + 1) edges.length := by
  have hc : edges.countP (within maxd) ≤ edges.length := List.countP_le_length _
  have h := limit_edges_by_length_go_eq edges maxd hs (edges.length + 1) 0
    (edges.length + 1) le_rfl (by omega) (by omega) (by omega) (by omega)
  unfold limit_edges_by_length
  norm_num at h
  rw [h]

/-- Claim C4 counterexample: a sorted list of 501 edges of which exactly 500
are within the cutoff 75² = 5625.  The claim predicts
clamp(500, 500, 501) = 500, but `limit_edges` returns 501 (the legacy
binary search is off by one past the cutoff). -/
theorem limit_edges_c4_counterexample :
    c4_edges.Sorted (fun a b => a.distance_squared ≤ b.distance_squared) ∧
    c4_edges.length = 501 ∧
    c4_edges.countP (within max_minutia_distance_squared) = 500 ∧
    min (max MIN_NUMBER_OF_EDGES
      (c4_edges.countP (within max_minutia_distance_squared))) c4_edges.length = 500 ∧
    limit_edges c4_edges = 501 := by
  refine ⟨by decide, by decide, by decide, by decide, by decide⟩

/-- Claim C4 (amended): for every edge list sorted ascending by
distance_squared, `limit_edges` (in the default strict mode) equals the
count of edges with distance_squared at most 75² = 5625 PLUS ONE (clamped to
the edge count), then clamped to at least `MIN_NUMBER_OF_EDGES` (500) and at
most the total number of edges.  This agrees with the claim except when the
count lies in [500, length), where the code keeps one edge beyond the
cutoff. -/
theorem limit_edges_c4_amended (edges : List Edge)
    (hs : edges.Sorted (fun a b => a.distance_squared ≤ b.distance_squared)) :
    limit_edges edges =
      min (max MIN_NUMBER_OF_EDGES
        (min (edges.countP (within max_minutia_distance_squared) + 1) edges.length))
        edges.length := by
  unfold limit_edges is_strict_mode
  rw [if_pos rfl, limit_edges_by_length_eq edges _ hs]

/-- Witness for the amended claim C4 at a concrete sorted input. -/
theorem limit_edges_c4_amended_witness :
    limit_edges c4_w_edges =
      min (max MIN_NUMBER_OF_EDGES
        (min (c4_w_edges.countP (within max_minutia_distance_squared) + 1)
          c4_w_edges.length))
        c4_w_edges.length :=
  limit_edges_c4_amended c4_w_edges (by decide)

/-! ## Theorems about edge construction (claims C6 and C10) -/

theorem normalize_angle_range (x : ℤ) (h1 : -540 < x) (h2 : x ≤ 540) :
    -180 < normalize_angle x ∧ normalize_angle x ≤ 180 := by
  unfold normalize_angle
  split
  · omega
  · split <;> omega

theorem atan2_round_degree_range (atan2Deg : ℤ → ℤ → ℚ)
    (h : ∀ dx dy, -180 ≤ atan2Deg dx dy ∧ atan2Deg dx dy ≤ 180) (dx dy : ℤ) :
    -180 ≤ atan2_round_degree atan2Deg dx dy ∧ atan2_round_degree atan2Deg dx dy ≤ 180 := by
  unfold atan2_round_degree
  split
  · omega
  · obtain ⟨h1, h2⟩ := h dx dy
    constructor
    · exact le_roundQ_of_le (by exact_mod_cast h1)
    · exact roundQ_le_of_le (by exact_mod_cast h2)

/-- An edge constructed by `make_edge` from in-range minutiae that are not
θ-opposite is well formed in the sense of claim C6. -/
theorem make_edge_ok (atan2Deg : ℤ → ℤ → ℚ) (m : List Minutia) (format : Format)
    (mk : Minutia) (k j : ℕ)
    (hatan : ∀ dx dy, -180 ≤ atan2Deg dx dy ∧ atan2Deg dx dy ≤ 180)
    (hmkr : -180 < mk.theta ∧ mk.theta ≤ 180)
    (hmjr : -180 < (m.getD j default).theta ∧ (m.getD j default).theta ≤ 180)
    (hmk : mk = m.getD k default)
    (hopp : are_angles_opposite mk.theta (m.getD j default).theta = false) :
    edge_ok m (make_edge atan2Deg m format mk k j) := by
  unfold make_edge
  have htk := atan2_round_degree_range atan2Deg hatan
    ((m.getD j default).x - mk.x)
    (oriented_dy format ((m.getD j default).y - mk.y))
  have hbk := normalize_angle_range
    (atan2_round_degree atan2Deg ((m.getD j default).x - mk.x)
        (oriented_dy format ((m.getD j default).y - mk.y)) - mk.theta)
    (by omega) (by omega)
  have hbj := normalize_angle_range
    (atan2_round_degree atan2Deg ((m.getD j default).x - mk.x)
        (oriented_dy format ((m.getD j default).y - mk.y)) - (m.getD j default).theta + 180)
    (by omega) (by omega)
  rw [hmk] at hopp
  dsimp only
  split
  · exact ⟨by dsimp only; omega, hbk, hbj, hopp⟩
  · exact ⟨by dsimp only; omega, hbj, hbk, hopp⟩

/-- Every edge in the output of the inner loop of `find_edges` is well
formed, provided the accumulated edges already are. -/
theorem find_edges_inner_ok (atan2Deg : ℤ → ℤ → ℚ) (m : List Minutia)
    (format : Format) (mk : Minutia) (k : ℕ)
    (hatan : ∀ dx dy, -180 ≤ atan2Deg dx dy ∧ atan2Deg dx dy ≤ 180)
    (htheta : ∀ mi ∈ m, -180 < mi.theta ∧ mi.theta ≤ 180)
    (hmk : mk = m.getD k default) (hk : k < m.length) :
    ∀ js edges, (∀ j ∈ js, j < m.length) → (∀ e ∈ edges, edge_ok m e) →
      ∀ e ∈ (find_edges_inner atan2Deg m format mk k js edges).1, edge_ok m e := by
  have hmkr : -180 < mk.theta ∧ mk.theta ≤ 180 :=
    htheta _ (hmk ▸ getD_mem_of_lt m k hk)
  intro js
  induction js with
  | nil =>
    intro edges _ hacc e he
    rw [find_edges_inner] at he
    exact hacc e he
  | cons j js ih =>
    intro edges hjs hacc e he
    have hjlen : j < m.length := hjs j (List.mem_cons_self j js)
    have hmjr : -180 < (m.getD j default).theta ∧ (m.getD j default).theta ≤ 180 :=
      htheta _ (getD_mem_of_lt m j hjlen)
    have hjs2 : ∀ x ∈ js, x < m.length := fun x hx => hjs x (List.mem_cons_of_mem j hx)
    simp only [find_edges_inner] at he
    by_cases hopp : are_angles_opposite mk.theta (m.getD j default).theta = true
    · rw [if_pos hopp] at he
      exact ih edges hjs2 hacc e he
    · rw [if_neg hopp] at he
      have hacc2 : ∀ x ∈ edges ++ [make_edge atan2Deg m format mk k j], edge_ok m x := by
        intro x hx
        rcases List.mem_append.mp hx with hx | hx
        · exact hacc x hx
        · rcases List.mem_singleton.mp hx with rfl
          exact make_edge_ok atan2Deg m format mk k j hatan hmkr hmjr hmk
            (by simpa using hopp)
      by_cases hfar : max_minutia_distance ^ 2 <
          ((m.getD j default).x - mk.x) ^ 2 + ((m.getD j default).y - mk.y) ^ 2
      · rw [if_pos hfar] at he
        by_cases hbrk : max_minutia_distance < (m.getD j default).x - mk.x
        · rw [if_pos hbrk] at he
          exact hacc e he
        · rw [if_neg hbrk] at he
          exact ih edges hjs2 hacc e he
      · rw [if_neg hfar] at he
        by_cases hcap : (edges ++ [make_edge atan2Deg m format mk k j]).length
            = MAX_NUMBER_OF_EDGES - 1
        · rw [if_pos hcap] at he
          exact hacc2 e he
        · rw [if_neg hcap] at he
          exact ih _ hjs2 hacc2 e he

/-- Every edge in the output of the outer loop of `find_edges` is well
formed, provided the accumulated edges already are. -/
theorem find_edges_outer_ok (atan2Deg : ℤ → ℤ → ℚ) (m : List Minutia)
    (format : Format)
    (hatan : ∀ dx dy, -180 ≤ atan2Deg dx dy ∧ atan2Deg dx dy ≤ 180)
    (htheta : ∀ mi ∈ m, -180 < mi.theta ∧ mi.theta ≤ 180) :
    ∀ ks edges, (∀ k ∈ ks, k < m.length) → (∀ e ∈ edges, edge_ok m e) →
      ∀ e ∈ find_edges_outer atan2Deg m format ks edges, edge_ok m e := by
  intro ks
  induction ks with
  | nil =>
    intro edges _ hacc e he
    rw [find_edges_outer] at he
    exact hacc e he
  | cons k ks ih =>
    intro edges hks hacc e he
    have hk : k < m.length := hks k (List.mem_cons_self k ks)
    have hks2 : ∀ x ∈ ks, x < m.length := fun x hx => hks x (List.mem_cons_of_mem k hx)
    have hres := find_edges_inner_ok atan2Deg m format (m.getD k default) k hatan htheta
      rfl hk (List.range' (k + 1) (m.length - (k + 1))) edges
      (by
        intro x hx
        have := List.mem_range'_1.mp hx
        omega)
      hacc
    simp only [find_edges_outer] at he
    split at he
    · exact hres e he
    · exact ih _ hks2 hres e he

/-- Claim C6: for every non-empty minutiae list with orientations in
(-180, 180] (and the abstracted atan2 within its mathematical range), every
edge emitted by `find_edges` has ordered βs inside (-180, 180], never joins
two θ-opposite minutiae, and the resulting vector is sorted ascending by
the key (distance_squared, min_beta, max_beta). -/
theorem find_edges_c6 (atan2Deg : ℤ → ℤ → ℚ) (minutiae : List Minutia)
    (format : Format) (hm : minutiae ≠ [])
    (htheta : ∀ mi ∈ minutiae, -180 < mi.theta ∧ mi.theta ≤ 180)
    (hatan : ∀ dx dy, -180 ≤ atan2Deg dx dy ∧ atan2Deg dx dy ≤ 180) :
    ∀ es, find_edges atan2Deg minutiae [] format = some es →
      (∀ e ∈ es, edge_ok minutiae e) ∧ es.Sorted edge_key_le := by
  intro es hes
  unfold find_edges at hes
  rw [if_neg (by simpa [List.isEmpty_iff] using hm)] at hes
  obtain rfl := (Option.some_inj).mp hes
  constructor
  · intro e he
    rw [List.mem_insertionSort] at he
    refine find_edges_outer_ok atan2Deg minutiae format hatan htheta
      (List.range (minutiae.length - 1)) [] ?_ (by simp) e he
    intro k hk
    have := List.mem_range.mp hk
    omega
  · exact List.sorted_insertionSort edge_key_le _

/-- Witness for claim C6 at a concrete input (the single edge produced from
the two minutiae of `c6_m`). -/
theorem find_edges_c6_witness :
    (∀ e ∈ [(⟨25, -100, 90, 0, 1, 90, .JK⟩ : Edge)], edge_ok c6_m e) ∧
      ([(⟨25, -100, 90, 0, 1, 90, .JK⟩ : Edge)]).Sorted edge_key_le :=
  find_edges_c6 zeroAtan2 c6_m .NistInternal (by decide) (by decide)
    (fun dx dy => by constructor <;> norm_num [zeroAtan2])
    [⟨25, -100, 90, 0, 1, 90, .JK⟩] (by decide)

/-- Claim C10: `find_edges` panics (modelled as `none`) exactly on the empty
minutiae list; on every non-empty list the assertion passes and the function
returns normally. -/
theorem find_edges_c10 (atan2Deg : ℤ → ℤ → ℚ) (minutiae : List Minutia)
    (edges : List Edge) (format : Format) :
    (minutiae = [] → find_edges atan2Deg minutiae edges format = none) ∧
    (minutiae ≠ [] → (find_edges atan2Deg minutiae edges format).isSome = true) := by
  constructor
  · intro h
    subst h
    rfl
  · intro h
    unfold find_edges
    rw [if_neg (by simpa [List.isEmpty_iff] using h)]
    rfl

/-- Witness for claim C10 at concrete inputs. -/
theorem find_edges_c10_witness :
    find_edges zeroAtan2 [] [] .NistInternal = none ∧
      (find_edges zeroAtan2 c6_m [] .NistInternal).isSome = true :=
  ⟨(find_edges_c10 zeroAtan2 [] [] .NistInternal).1 rfl,
   (find_edges_c10 zeroAtan2 c6_m [] .NistInternal).2 (by decide)⟩

/-! ## Theorems about cluster combination (claim C5) -/

theorem intersection_go_sublist :
    ∀ g l1 l2, (intersection_go g l1 l2).Sublist l1 := by
  intro g
  induction g with
  | zero =>
    intro l1 l2
    exact List.nil_sublist l1
  | succ g ih =>
    intro l1 l2
    cases l1 with
    | nil =>
      rw [intersection_go]
    | cons a as2 =>
      cases l2 with
      | nil =>
        rw [intersection_go]
        exact List.nil_sublist _
      | cons b bs =>
        rw [intersection_go]
        split_ifs with h1 h2
        · exact ih (a :: as2) bs
        · exact (ih as2 (b :: bs)).cons a
        · have hab : a = b := by omega
          subst hab
          exact (ih as2 bs).cons₂ a

theorem intersection_go_subset_right :
    ∀ g l1 l2, ∀ x ∈ intersection_go g l1 l2, x ∈ l2 := by
  intro g
  induction g with
  | zero =>
    intro l1 l2 x hx
    simp [intersection_go] at hx
  | succ g ih =>
    intro l1 l2 x hx
    cases l1 with
    | nil =>
      rw [intersection_go] at hx
      simp at hx
    | cons a as2 =>
      cases l2 with
      | nil =>
        rw [intersection_go] at hx
        simp at hx
      | cons b bs =>
        rw [intersection_go] at hx
        split_ifs at hx with h1 h2
        · exact List.mem_cons_of_mem b (ih (a :: as2) bs x hx)
        · exact ih as2 (b :: bs) x hx
        · rcases List.mem_cons.mp hx with rfl | hx
          · exact List.mem_cons_self _ _
          · exact List.mem_cons_of_mem b (ih as2 bs x hx)

theorem intersection_length_lt (l1 l2 : List ℕ) (n : ℕ) (hn1 : n ∈ l1)
    (hn2 : n ∉ l2) : (intersection_of_sorted l1 l2).length < l1.length := by
  have hsub := intersection_go_sublist (l1.length + l2.length) l1 l2
  have hle := hsub.length_le
  rcases lt_or_eq_of_le hle with h | h
  · exact h
  · exfalso
    apply hn2
    have heq := hsub.eq_of_length h
    exact intersection_go_subset_right _ l1 l2 n (heq ▸ hn1)

theorem foldl_fst_mono {β : Type} (f : ℕ × List ℕ → β → ℕ × List ℕ) :
    ∀ (l : List β), (∀ acc x, x ∈ l → acc.1 ≤ (f acc x).1) →
      ∀ acc, acc.1 ≤ (l.foldl f acc).1 := by
  intro l
  induction l with
  | nil =>
    intro _ acc
    exact le_refl _
  | cons x xs ih =>
    intro hf acc
    rw [List.foldl_cons]
    exact (hf acc x (List.mem_cons_self x xs)).trans
      (ih (fun a y hy => hf a y (List.mem_cons_of_mem x hy)) (f acc x))

theorem combine_level_mono (cs : Clusters) (collect : Bool) :
    ∀ depth path cluster connected acc,
      acc.1 ≤ (combine_level cs collect depth path cluster connected acc).1 := by
  intro depth
  induction depth with
  | zero =>
    intro _ _ _ acc
    exact le_refl _
  | succ depth ih =>
    intro path cluster connected acc
    simp only [combine_level]
    split
    · split
      · next h => exact le_of_lt h
      · exact le_refl _
    · exact foldl_fst_mono _ connected (fun acc2 x _ => ih _ _ _ acc2) acc

theorem combine_level_reach (cs : Clusters) (collect : Bool) (H : compat_wf cs) :
    ∀ depth path cluster connected acc, connected.length < depth →
      ((path ++ [cluster]).map (cluster_points cs)).sum ≤
        (combine_level cs collect depth path cluster connected acc).1 := by
  intro depth
  induction depth with
  | zero =>
    intro _ _ _ _ hlen
    omega
  | succ depth ih =>
    intro path cluster connected acc hlen
    simp only [combine_level]
    cases connected with
    | nil =>
      simp only [List.isEmpty_nil, if_true]
      split
      · exact le_refl _
      · next h => omega
    | cons n rest =>
      simp only [List.isEmpty_cons, Bool.false_eq_true, if_false]
      rw [List.foldl_cons]
      have hnot : n ∉ compatOf cs n := by
        intro hmem
        have := ((H n).2.1 n hmem).1
        omega
      have hlt := intersection_length_lt (n :: rest) (compatOf cs n) n
        (List.mem_cons_self n rest) hnot
      have h1 := ih (path ++ [cluster]) n
        (intersection_of_sorted (n :: rest) (compatOf cs n))
        acc (by simp only [List.length_cons] at hlen hlt ⊢; omega)
      have h2 : ((path ++ [cluster]).map (cluster_points cs)).sum ≤
          ((path ++ [cluster] ++ [n]).map (cluster_points cs)).sum := by
        simp
      exact h2.trans (h1.trans (foldl_fst_mono _ rest
        (fun acc2 x _ => combine_level_mono cs collect _ _ _ _ acc2) _))

theorem nodup_lt_length_le (l : List ℕ) (N : ℕ) (hnd : l.Nodup)
    (hlt : ∀ x ∈ l, x < N) : l.length ≤ N := by
  have h1 : l.toFinset ⊆ Finset.range N := by
    intro x hx
    rw [Finset.mem_range]
    exact hlt x (List.mem_toFinset.mp hx)
  have h2 := Finset.card_le_card h1
  rw [List.toFinset_card_of_nodup hnd] at h2
  simpa using h2

theorem sum_points_le_total (cs : Clusters) (l : List ℕ) (hnd : l.Nodup)
    (hlt : ∀ x ∈ l, x < cs.similar.length) :
    (l.map (cluster_points cs)).sum ≤
      ∑ i in Finset.range cs.similar.length, cluster_points cs i := by
  rw [← List.sum_toFinset _ hnd]
  apply Finset.sum_le_sum_of_subset
  intro x hx
  rw [Finset.mem_range]
  exact hlt x (List.mem_toFinset.mp hx)

theorem foldl_fst_le_max {β : Type} (f : ℕ × List ℕ → β → ℕ × List ℕ) (S : ℕ) :
    ∀ (l : List β), (∀ acc x, x ∈ l → (f acc x).1 ≤ max acc.1 S) →
      ∀ acc, (l.foldl f acc).1 ≤ max acc.1 S := by
  intro l
  induction l with
  | nil =>
    intro _ acc
    exact le_max_left _ _
  | cons x xs ih =>
    intro hf acc
    rw [List.foldl_cons]
    have h1 := ih (fun a y hy => hf a y (List.mem_cons_of_mem x hy)) (f acc x)
    have h2 := hf acc x (List.mem_cons_self x xs)
    omega

theorem combine_level_le (cs : Clusters) (collect : Bool) (H : compat_wf cs) :
    ∀ depth path cluster connected acc,
      (path ++ [cluster]).Nodup →
      (∀ x ∈ path ++ [cluster], x < cs.similar.length) →
      (∀ x ∈ connected, x ∉ path ++ [cluster] ∧ x < cs.similar.length) →
      (combine_level cs collect depth path cluster connected acc).1 ≤
        max acc.1 (∑ i in Finset.range cs.similar.length, cluster_points cs i) := by
  intro depth
  induction depth with
  | zero =>
    intros
    exact le_max_left _ _
  | succ depth ih =>
    intro path cluster connected acc hnd hbound hconn
    simp only [combine_level]
    split
    · split
      · exact le_max_of_le_right (sum_points_le_total cs _ hnd hbound)
      · exact le_max_left _ _
    · apply foldl_fst_le_max
      intro acc2 next hnext
      apply ih
      · rw [List.nodup_append]
        exact ⟨hnd, List.nodup_singleton next,
          List.disjoint_singleton.mpr (hconn next hnext).1⟩
      · intro x hx
        rcases List.mem_append.mp hx with hx | hx
        · exact hbound x hx
        · rcases List.mem_singleton.mp hx with rfl
          exact (hconn x hnext).2
      · intro x hx
        have hxconn : x ∈ connected :=
          (intersection_go_sublist _ connected (compatOf cs next)).subset hx
        have hxcompat : x ∈ compatOf cs next :=
          intersection_go_subset_right _ connected (compatOf cs next) x hx
        have hne : x ≠ next := by
          have := ((H next).2.1 x hxcompat).1
          omega
        refine ⟨?_, (hconn x hxconn).2⟩
        intro hmem
        rcases List.mem_append.mp hmem with hmem | hmem
        · exact (hconn x hxconn).1 hmem
        · exact hne (List.mem_singleton.mp hmem)

theorem combine_clusters_le (cs : Clusters) (collect : Bool) (H : compat_wf cs) :
    (combine_clusters cs collect).1 ≤
      ∑ i in Finset.range cs.similar.length, cluster_points cs i := by
  unfold combine_clusters
  have h := foldl_fst_le_max
    (fun acc cluster =>
      if (cs.similar.getD cluster default).points_including_compatible_clusters ≤ acc.1 then
        acc
      else
        combine_level cs collect (cs.similar.length + 1) [] cluster
          (compatOf cs cluster) acc)
    (∑ i in Finset.range cs.similar.length, cluster_points cs i)
    (List.range cs.similar.length) ?_ (0, [])
  · simpa using h
  · intro acc x hx
    dsimp only
    split
    · exact le_max_left _ _
    · apply combine_level_le cs collect H
      · simpa using List.nodup_singleton x
      · intro y hy
        rcases List.mem_singleton.mp (by simpa using hy) with rfl
        exact List.mem_range.mp hx
      · intro y hy
        have h1 := (H x).2.1 y hy
        constructor
        · intro hmem
          have : y = x := List.mem_singleton.mp (by simpa using hmem)
          omega
        · exact h1.2

theorem combine_seed_fold_ge (cs : Clusters) (collect : Bool) (H : compat_wf cs) :
    ∀ (l : List ℕ) acc, ∀ i ∈ l,
      cluster_points cs i ≤
        (l.foldl (fun acc2 cluster =>
          if (cs.similar.getD cluster default).points_including_compatible_clusters ≤ acc2.1 then
            acc2
          else
            combine_level cs collect (cs.similar.length + 1) [] cluster
              (compatOf cs cluster) acc2) acc).1 := by
  have hstep : ∀ acc2 x, acc2.1 ≤
      ((fun acc2 cluster =>
        if (cs.similar.getD cluster default).points_including_compatible_clusters ≤ acc2.1 then
          acc2
        else
          combine_level cs collect (cs.similar.length + 1) [] cluster
            (compatOf cs cluster) acc2) acc2 x).1 := by
    intro acc2 x
    dsimp only
    split
    · exact le_refl _
    · exact combine_level_mono cs collect _ _ _ _ acc2
  intro l
  induction l with
  | nil =>
    intro _ i hi
    simp at hi
  | cons j rest ih =>
    intro acc i hi
    rw [List.foldl_cons]
    rcases List.mem_cons.mp hi with rfl | hi
    · refine le_trans ?_ (foldl_fst_mono _ rest (fun a y _ => hstep a y) _)
      dsimp only
      split
      · next h =>
        exact le_trans (H i).2.2 h
      · have hlen : (compatOf cs i).length < cs.similar.length + 1 := by
          have hnd : (compatOf cs i).Nodup :=
            (H i).1.imp (fun h => Nat.ne_of_lt h)
          have := nodup_lt_length_le (compatOf cs i) cs.similar.length hnd
            (fun x hx => ((H i).2.1 x hx).2)
          omega
        have := combine_level_reach cs collect H (cs.similar.length + 1) [] i
          (compatOf cs i) acc hlen
        simpa using this
    · exact ih _ i hi

theorem combine_clusters_ge (cs : Clusters) (collect : Bool) (H : compat_wf cs) :
    ∀ i < cs.similar.length, cluster_points cs i ≤ (combine_clusters cs collect).1 := by
  intro i hi
  unfold combine_clusters
  exact combine_seed_fold_ge cs collect H (List.range cs.similar.length) (0, [])
    i (List.mem_range.mpr hi)

theorem getD_map_range {α : Type} [Inhabited α] (N i : ℕ) (g : ℕ → α) (hi : i < N) :
    ((List.range N).map g).getD i default = g i := by
  rw [List.getD_eq_getElem _ _ (by simpa using hi)]
  simp

/-- The pairwise pass produces a well-formed compatibility graph. -/
theorem find_compatible_wf (atanDeg : ℚ → ℚ) (cs : Clusters) (format : Format) :
    compat_wf (find_compatible_disjoint_clusters_and_accumulate_points atanDeg cs format) := by
  intro cluster
  have hlen : (find_compatible_disjoint_clusters_and_accumulate_points atanDeg cs
      format).similar.length = cs.similar.length := by
    simp [find_compatible_disjoint_clusters_and_accumulate_points]
  by_cases hc : cluster < cs.similar.length
  · have hgetD : (find_compatible_disjoint_clusters_and_accumulate_points atanDeg cs
        format).similar.getD cluster default =
        { points := (cs.similar.getD cluster default).points,
          compatible_clusters := compatible_clusters_for atanDeg cs format cluster,
          points_including_compatible_clusters :=
            (cs.similar.getD cluster default).points
              + ((compatible_clusters_for atanDeg cs format cluster).map
                  (fun other => (cs.similar.getD other default).points)).sum } := by
      unfold find_compatible_disjoint_clusters_and_accumulate_points
      exact getD_map_range cs.similar.length cluster _ hc
    rw [compatOf, hgetD]
    refine ⟨?_, ?_, ?_⟩
    · exact (List.pairwise_lt_range' _ _ 1).filter _
    · intro other hother
      have hmem := List.mem_range'_1.mp (List.mem_of_mem_filter hother)
      rw [hlen]
      omega
    · rw [cluster_points, hgetD]
      exact Nat.le_add_right _ _
  · have hout : (find_compatible_disjoint_clusters_and_accumulate_points atanDeg cs
        format).similar.getD cluster default = default := by
      apply List.getD_eq_default
      rw [hlen]
      omega
    rw [compatOf, hout]
    refine ⟨List.Pairwise.nil, ?_, ?_⟩
    · intro other hother
      simp [default] at hother
    · rw [cluster_points, hout]
      exact le_rfl

/-- Claim C5: whenever at least one cluster exists, the score produced by
the combine pass (run after
`find_compatible_disjoint_clusters_and_accumulate_points`) is at least
every single cluster's points and at most the sum of points over all
clusters. -/
theorem combine_clusters_c5 (atanDeg : ℚ → ℚ) (cs0 : Clusters) (format : Format)
    (collect : Bool)
    (hne : (find_compatible_disjoint_clusters_and_accumulate_points atanDeg cs0
      format).similar ≠ []) :
    (∀ i < (find_compatible_disjoint_clusters_and_accumulate_points atanDeg cs0
        format).similar.length,
      cluster_points (find_compatible_disjoint_clusters_and_accumulate_points atanDeg cs0
        format) i ≤
        (combine_clusters (find_compatible_disjoint_clusters_and_accumulate_points atanDeg
          cs0 format) collect).1) ∧
      (combine_clusters (find_compatible_disjoint_clusters_and_accumulate_points atanDeg
        cs0 format) collect).1 ≤
        ∑ i in Finset.range (find_compatible_disjoint_clusters_and_accumulate_points atanDeg
          cs0 format).similar.length,
          cluster_points (find_compatible_disjoint_clusters_and_accumulate_points atanDeg
            cs0 format) i := by
  have H := find_compatible_wf atanDeg cs0 format
  exact ⟨fun i hi => combine_clusters_ge _ collect H i hi, combine_clusters_le _ collect H⟩

/-- Witness for claim C5 at a concrete one-cluster input. -/
theorem combine_clusters_c5_witness :
    (∀ i < (find_compatible_disjoint_clusters_and_accumulate_points zeroAtan c5_w_cs
        Format.NistInternal).similar.length,
      cluster_points (find_compatible_disjoint_clusters_and_accumulate_points zeroAtan
        c5_w_cs Format.NistInternal) i ≤
        (combine_clusters (find_compatible_disjoint_clusters_and_accumulate_points zeroAtan
          c5_w_cs Format.NistInternal) false).1) ∧
      (combine_clusters (find_compatible_disjoint_clusters_and_accumulate_points zeroAtan
        c5_w_cs Format.NistInternal) false).1 ≤
        ∑ i in Finset.range (find_compatible_disjoint_clusters_and_accumulate_points zeroAtan
          c5_w_cs Format.NistInternal).similar.length,
          cluster_points (find_compatible_disjoint_clusters_and_accumulate_points zeroAtan
            c5_w_cs Format.NistInternal) i :=
  combine_clusters_c5 zeroAtan c5_w_cs Format.NistInternal false (by decide)

end Bozorth


namespace Bozorth

/-! ### Claim C1: the failure mode of `match_score` -/

/-- Claim C1: `match_score` returns an error if and only if the probe or the
gallery minutiae list has fewer than `MINIMAL_NUMBER_OF_MINUTIA = 10`
elements, and on that path it produces no data and returns the state
untouched (the clearing happens only on the success path). -/
theorem match_score_c1 (fuel : ℕ) (atanDeg : ℚ → ℚ) (pairs : PairHolder)
    (probe_minutiae gallery_minutiae : List Minutia) (format : Format)
    (state : BozorthState) :
    ((match_score fuel atanDeg pairs probe_minutiae gallery_minutiae format state).1
        = Except.error () ↔
      probe_minutiae.length < MINIMAL_NUMBER_OF_MINUTIA
        ∨ gallery_minutiae.length < MINIMAL_NUMBER_OF_MINUTIA) ∧
    ((probe_minutiae.length < MINIMAL_NUMBER_OF_MINUTIA
        ∨ gallery_minutiae.length < MINIMAL_NUMBER_OF_MINUTIA) →
      match_score fuel atanDeg pairs probe_minutiae gallery_minutiae format state
        = (Except.error (), state)) := by
  unfold match_score
  by_cases h : probe_minutiae.length < MINIMAL_NUMBER_OF_MINUTIA
      ∨ gallery_minutiae.length < MINIMAL_NUMBER_OF_MINUTIA
  · rw [if_pos h]
    exact ⟨iff_of_true rfl h, fun _ => rfl⟩
  · rw [if_neg h]
    refine ⟨iff_of_false ?_ h, fun hc => absurd hc h⟩
    dsimp only
    split <;> simp

/-- Witness for claim C1: an empty probe list makes `match_score` fail and
hand the state back unmodified. -/
theorem match_score_c1_witness :
    ([] : List Minutia).length < MINIMAL_NUMBER_OF_MINUTIA ∧
    match_score 1 zeroAtan c2_ph [] c2_pm Format.NistInternal BozorthState.new
      = (Except.error (), BozorthState.new) :=
  ⟨by decide,
    (match_score_c1 1 zeroAtan c2_ph [] c2_pm Format.NistInternal BozorthState.new).2
      (Or.inl (by decide))⟩

/-! ### Claim C2: the final combine pass and the returned cluster list -/

/-- Generic fold invariant: a step function that fixes the second component
fixes it across the whole fold. -/
theorem foldl_snd_eq {α β γ : Type} (f : β × γ → α → β × γ) (l : List α)
    (hf : ∀ acc a, (f acc a).2 = acc.2) (acc : β × γ) :
    (l.foldl f acc).2 = acc.2 := by
  induction l generalizing acc with
  | nil => rfl
  | cons a l ih => rw [List.foldl_cons, ih (f acc a), hf]

/-- With `collect_compatible_clusters = false` the DFS never touches the
cluster-list component of the accumulator. -/
theorem combine_level_snd_collect_false (cs : Clusters) :
    ∀ (depth : ℕ) (path : List ℕ) (cluster : ℕ) (connected : List ℕ)
      (acc : ℕ × List ℕ),
      (combine_level cs false depth path cluster connected acc).2 = acc.2 := by
  intro depth
  induction depth with
  | zero => intro _ _ _ _; rfl
  | succ depth ih =>
    intro path cluster connected acc
    rw [combine_level]
    split
    · dsimp only
      rw [if_neg (by decide : ¬(false = true))]
      split
      · rfl
      · rfl
    · exact foldl_snd_eq _ connected (fun acc2 next => ih _ _ _ acc2) acc

/-- The combine pass with `collect_compatible_clusters = false` always
returns the empty cluster list. -/
theorem combine_clusters_snd_collect_false (cs : Clusters) :
    (combine_clusters cs false).2 = [] := by
  unfold combine_clusters
  refine foldl_snd_eq _ _ (fun acc cluster => ?_) (0, [])
  dsimp only
  split
  · rfl
  · exact combine_level_snd_collect_false cs _ _ _ _ acc

/-- On the success path the state returned by `match_score` is the cleared
state with the seed loop and the compatibility accumulation applied. -/
theorem match_score_state_clusters (fuel : ℕ) (atanDeg : ℚ → ℚ) (pairs : PairHolder)
    (probe_minutiae gallery_minutiae : List Minutia) (format : Format)
    (state : BozorthState)
    (h : ¬(probe_minutiae.length < MINIMAL_NUMBER_OF_MINUTIA
      ∨ gallery_minutiae.length < MINIMAL_NUMBER_OF_MINUTIA)) :
    (match_score fuel atanDeg pairs probe_minutiae gallery_minutiae format state).2.clusters
      = find_compatible_disjoint_clusters_and_accumulate_points atanDeg
          (seed_loop fuel probe_minutiae gallery_minutiae pairs
            state.clear).clusters format := by
  unfold match_score
  rw [if_neg h]
  dsimp only
  split <;> rfl

/-- Claim C2 counterexample: on a ten-minutiae input whose three pairs grow a
single cluster worth 9 points, the preliminary best score 9 reaches the
threshold 8 — so the claimed `collect_compatible_clusters = true` rerun
should export the contributing clusters — yet `match_score` returns the
positive score 9 with an EMPTY cluster id list, because the source invokes
the final combine pass with `collect_compatible_clusters = false`. -/
theorem match_score_c2_counterexample :
    (match_score 100 zeroAtan c2_ph c2_pm c2_pm Format.NistInternal BozorthState.new).1
        = Except.ok (9, ([] : List ℕ))
      ∧ score_threshold ≤ (preliminary_score
          (match_score 100 zeroAtan c2_ph c2_pm c2_pm Format.NistInternal
            BozorthState.new).2.clusters).1 := by
  constructor
  · decide
  · decide

/-- Claim C2 (amended): when both minutiae lists are large enough and the
preliminary best score reaches the threshold, `match_score` returns the
score of the final combine pass run with `collect_compatible_clusters =
false` together with an EMPTY cluster id list. -/
theorem match_score_c2_amended (fuel : ℕ) (atanDeg : ℚ → ℚ) (pairs : PairHolder)
    (probe_minutiae gallery_minutiae : List Minutia) (format : Format)
    (state : BozorthState)
    (hp : MINIMAL_NUMBER_OF_MINUTIA ≤ probe_minutiae.length)
    (hg : MINIMAL_NUMBER_OF_MINUTIA ≤ gallery_minutiae.length)
    (hthr : score_threshold ≤ (preliminary_score
      (match_score fuel atanDeg pairs probe_minutiae gallery_minutiae format
        state).2.clusters).1) :
    (match_score fuel atanDeg pairs probe_minutiae gallery_minutiae format state).1
      = Except.ok ((combine_clusters
          (match_score fuel atanDeg pairs probe_minutiae gallery_minutiae format
            state).2.clusters false).1, []) := by
  have hlt : ¬(probe_minutiae.length < MINIMAL_NUMBER_OF_MINUTIA
      ∨ gallery_minutiae.length < MINIMAL_NUMBER_OF_MINUTIA) := by omega
  have hsnd := match_score_state_clusters fuel atanDeg pairs probe_minutiae
    gallery_minutiae format state hlt
  rw [hsnd] at hthr ⊢
  unfold match_score
  rw [if_neg hlt]
  dsimp only
  rw [if_neg (not_lt.mpr hthr)]
  have hempty := combine_clusters_snd_collect_false
    (find_compatible_disjoint_clusters_and_accumulate_points atanDeg
      (seed_loop fuel probe_minutiae gallery_minutiae pairs state.clear).clusters format)
  exact congrArg Except.ok (Prod.ext_iff.mpr ⟨rfl, hempty⟩)

end Bozorth

namespace Bozorth

/-! ### Claim C7: cluster ownership of selected pairs -/

/-- Generic fold invariant: a property preserved by every step holds of the
fold's result. -/
theorem foldl_preserves_inv {α σ : Type} (P : σ → Prop) (f : σ → α → σ)
    (hf : ∀ s a, P s → P (f s a)) (l : List α) (s : σ) (h : P s) :
    P (l.foldl f s) := by
  induction l generalizing s with
  | nil => exact h
  | cons a l ih => exact ih (f s a) (hf s a h)

/-- Reading the assigner back after an `assign`. -/
theorem get_cluster_assign (a : ClusterAssigner) (pair_index cluster p : ℕ) :
    (a.assign pair_index cluster).get_cluster p
      = if p = pair_index then some cluster else a.get_cluster p := by
  unfold ClusterAssigner.assign ClusterAssigner.get_cluster
  dsimp only
  by_cases h : p = pair_index
  · rw [if_pos h, if_pos h, if_neg (by omega : ¬cluster + 1 = 0)]
    simp
  · rw [if_neg h, if_neg h]

/-- The conflict arm touches only the groups. -/
theorem assign_conflict_state (eg ep : Option ℕ) (pep gep : ℕ)
    (state : BozorthState) (tv : List (ℕ × ℕ)) :
    (assign_conflict eg ep pep gep state tv).1.selected_pairs = state.selected_pairs
      ∧ (assign_conflict eg ep pep gep state tv).1.assigner = state.assigner
      ∧ (assign_conflict eg ep pep gep state tv).1.clusters = state.clusters := by
  unfold assign_conflict
  split
  · exact ⟨rfl, rfl, rfl⟩
  · exact ⟨rfl, rfl, rfl⟩

/-- `assign_cluster_to_endpoints` keeps every selected pair (old and new)
assigned to the cluster being grown, and never touches the cluster table. -/
theorem assign_cluster_to_endpoints_inv (cluster pair_index pep gep : ℕ)
    (state : BozorthState) (tv : List (ℕ × ℕ))
    (h : ∀ p ∈ state.selected_pairs, state.assigner.get_cluster p = some cluster) :
    (∀ p ∈ (assign_cluster_to_endpoints cluster pair_index pep gep state
        tv).1.selected_pairs,
      (assign_cluster_to_endpoints cluster pair_index pep gep state
        tv).1.assigner.get_cluster p = some cluster)
      ∧ (assign_cluster_to_endpoints cluster pair_index pep gep state tv).1.clusters
          = state.clusters := by
  have key : ∀ p ∈ state.selected_pairs ++ [pair_index],
      (state.assigner.assign pair_index cluster).get_cluster p = some cluster := by
    intro p hp
    rw [get_cluster_assign]
    by_cases hpi : p = pair_index
    · rw [if_pos hpi]
    · rw [if_neg hpi]
      rcases List.mem_append.mp hp with hp | hp
      · exact h p hp
      · exact absurd (List.mem_singleton.mp hp) hpi
  have conflict : ∀ (eg ep : Option ℕ),
      (∀ p ∈ (assign_conflict eg ep pep gep state tv).1.selected_pairs,
        (assign_conflict eg ep pep gep state tv).1.assigner.get_cluster p = some cluster)
        ∧ (assign_conflict eg ep pep gep state tv).1.clusters = state.clusters := by
    intro eg ep
    obtain ⟨h1, h2, h3⟩ := assign_conflict_state eg ep pep gep state tv
    refine ⟨fun p hp => ?_, h3⟩
    rw [h2]
    exact h p (h1 ▸ hp)
  unfold assign_cluster_to_endpoints
  cases hA : state.associator.get_associated_by_probe pep with
  | none =>
    cases hB : state.associator.get_associated_by_gallery gep with
    | none =>
      dsimp only
      split
      · exact ⟨key, rfl⟩
      · exact ⟨h, rfl⟩
    | some e2 => exact conflict none (some e2)
  | some e1 =>
    cases hB : state.associator.get_associated_by_gallery gep with
    | none => exact conflict (some e1) none
    | some e2 =>
      dsimp only
      split
      · split
        · exact ⟨h, rfl⟩
        · split
          · split
            · exact ⟨key, rfl⟩
            · exact ⟨key, rfl⟩
          · exact ⟨key, rfl⟩
      · exact conflict (some e1) (some e2)

/-- Pair-state form of `assign_cluster_to_endpoints_inv`, for fold steps. -/
theorem assign_step_inv (cluster : ℕ) (C : Clusters)
    (st : BozorthState × List (ℕ × ℕ)) (idx pep gep : ℕ)
    (hs : (∀ p ∈ st.1.selected_pairs, st.1.assigner.get_cluster p = some cluster)
      ∧ st.1.clusters = C) :
    (∀ p ∈ (assign_cluster_to_endpoints cluster idx pep gep st.1 st.2).1.selected_pairs,
      (assign_cluster_to_endpoints cluster idx pep gep st.1 st.2).1.assigner.get_cluster p
        = some cluster)
      ∧ (assign_cluster_to_endpoints cluster idx pep gep st.1 st.2).1.clusters = C := by
  obtain ⟨g1, g2⟩ := assign_cluster_to_endpoints_inv cluster idx pep gep st.1 st.2 hs.1
  exact ⟨g1, g2.trans hs.2⟩

/-- The worklist loop of `traverse_edges` preserves the ownership invariant
and the cluster table. -/
theorem traverse_loop_inv (pairs : PairHolder) (start : Pair) (nnc cluster : ℕ)
    (C : Clusters) :
    ∀ (fuel cursor : ℕ) (st : BozorthState × List (ℕ × ℕ)),
      ((∀ p ∈ st.1.selected_pairs, st.1.assigner.get_cluster p = some cluster)
        ∧ st.1.clusters = C) →
      ((∀ p ∈ (traverse_loop pairs start nnc cluster fuel cursor st.1
          st.2).1.selected_pairs,
        (traverse_loop pairs start nnc cluster fuel cursor st.1
          st.2).1.assigner.get_cluster p = some cluster)
        ∧ (traverse_loop pairs start nnc cluster fuel cursor st.1 st.2).1.clusters = C) := by
  intro fuel
  induction fuel with
  | zero => exact fun cursor st h => h
  | succ fuel ih =>
    intro cursor st h
    rw [traverse_loop]
    split
    · dsimp only
      apply ih
      apply foldl_preserves_inv
        (fun s : BozorthState × List (ℕ × ℕ) =>
          (∀ p ∈ s.1.selected_pairs, s.1.assigner.get_cluster p = some cluster)
            ∧ s.1.clusters = C)
        _ (fun s t hs => assign_step_inv cluster C s t.1 t.2.1 t.2.2 hs)
      apply foldl_preserves_inv
        (fun s : BozorthState × List (ℕ × ℕ) =>
          (∀ p ∈ s.1.selected_pairs, s.1.assigner.get_cluster p = some cluster)
            ∧ s.1.clusters = C)
        _ (fun s t hs => ?_) _ _ h
      dsimp only
      split
      · exact assign_step_inv cluster C s t.1 t.2.1 t.2.2 hs
      · exact hs
    · exact h

/-- `traverse_edges` keeps every selected pair assigned to the cluster being
grown and leaves the cluster table unchanged. -/
theorem traverse_edges_inv (fuel : ℕ) (pairs : PairHolder) (start_pair cluster : ℕ)
    (state : BozorthState)
    (h : ∀ p ∈ state.selected_pairs, state.assigner.get_cluster p = some cluster) :
    (∀ p ∈ (traverse_edges fuel pairs start_pair cluster state).selected_pairs,
      (traverse_edges fuel pairs start_pair cluster state).assigner.get_cluster p
        = some cluster)
      ∧ (traverse_edges fuel pairs start_pair cluster state).clusters
          = state.clusters := by
  unfold traverse_edges
  dsimp only
  apply foldl_preserves_inv
    (fun s : BozorthState =>
      (∀ p ∈ s.selected_pairs, s.assigner.get_cluster p = some cluster)
        ∧ s.clusters = state.clusters)
    (fun (s : BozorthState) (entry : ℕ × ℕ) =>
      { s with associator := s.associator.clear_by_probe entry.1 })
    (fun s e hs => hs)
  apply traverse_loop_inv
  apply foldl_preserves_inv
    (fun s : BozorthState × List (ℕ × ℕ) =>
      (∀ p ∈ s.1.selected_pairs, s.1.assigner.get_cluster p = some cluster)
        ∧ s.1.clusters = state.clusters)
    _ (fun s t hs => assign_step_inv cluster state.clusters s t.1 t.2.1 t.2.2 hs)
  exact ⟨h, rfl⟩

/-- Claim C7 counterexample: on the five-pair input `c7_raw`, after the seed
loop of `match_score` the first emitted cluster stores the pair list
[0, 1, 2, 3] and the second [0, 1, 2, 4] — pairs 0, 1 and 2 occur in BOTH
clusters — and the assigner maps pair 0 to cluster 1, not to the cluster 0
whose stored list contains it: group backtracking regrows later clusters
out of pairs already emitted with an earlier cluster, reassigning them. -/
theorem match_score_c7_counterexample :
    (match_score 100 zeroAtan c7_ph c2_pm c2_pm Format.NistInternal
        BozorthState.new).2.clusters.pairs = [[0, 1, 2, 3], [0, 1, 2, 4]]
      ∧ (0 : ℕ) ∈ (match_score 100 zeroAtan c7_ph c2_pm c2_pm Format.NistInternal
          BozorthState.new).2.clusters.pairs.getD 0 []
      ∧ (0 : ℕ) ∈ (match_score 100 zeroAtan c7_ph c2_pm c2_pm Format.NistInternal
          BozorthState.new).2.clusters.pairs.getD 1 []
      ∧ (match_score 100 zeroAtan c7_ph c2_pm c2_pm Format.NistInternal
          BozorthState.new).2.assigner.get_cluster 0 ≠ some 0 := by
  refine ⟨by decide, by decide, by decide, by decide⟩

/-- Claim C7 (amended): the ownership invariant holds at emission time — when
one call to `maybe_create_cluster` appends a cluster with pair list `l`,
every pair index in `l` is mapped by the assigner to that new cluster's id
at that moment.  (The invariant is not preserved by the whole seed loop:
later group-backtracked clusters may reuse and reassign those pairs.) -/
theorem maybe_create_cluster_c7_amended (fuel : ℕ)
    (probe_minutiae gallery_minutiae : List Minutia) (pairs : PairHolder)
    (start_pair : ℕ) (st : BozorthState) (l : List ℕ)
    (h : (maybe_create_cluster fuel probe_minutiae gallery_minutiae pairs start_pair
        st).clusters.pairs = st.clusters.pairs ++ [l]) :
    ∀ p ∈ l,
      (maybe_create_cluster fuel probe_minutiae gallery_minutiae pairs start_pair
        st).assigner.get_cluster p = some st.clusters.similar.length := by
  have hinv := traverse_edges_inv fuel pairs start_pair st.clusters.similar.length
    { st with selected_pairs := [] }
    (fun p hp => absurd hp (List.not_mem_nil p))
  unfold maybe_create_cluster at h ⊢
  dsimp only at h ⊢
  set T := traverse_edges fuel pairs start_pair st.clusters.similar.length
    { st with selected_pairs := [] } with hTdef
  have hTc : T.clusters = st.clusters := hinv.2
  have hsel : ∀ p ∈ T.selected_pairs,
      T.assigner.get_cluster p = some st.clusters.similar.length := hinv.1
  by_cases h1 : min_number_of_pairs_to_build_cluster ≤ T.selected_pairs.length
  · rw [if_pos h1] at h ⊢
    dsimp only at h ⊢
    by_cases h2 : (filter_selected T.selected_pairs pairs).length
        < min_number_of_pairs_to_build_cluster
    · rw [if_pos h2] at h
      dsimp only at h
      rw [hTc] at h
      exfalso
      have hlen := congrArg List.length h
      rw [List.length_append] at hlen
      simp at hlen
    · rw [if_neg h2] at h ⊢
      unfold Clusters.push at h
      dsimp only at h ⊢
      rw [hTc] at h
      have hFl : filter_selected T.selected_pairs pairs = l := by
        have := List.append_cancel_left h
        simpa using this
      intro p hp
      rw [← hFl] at hp
      unfold filter_selected at hp
      dsimp only at hp
      exact hsel p (List.mem_filter.mp hp).1
  · rw [if_neg h1] at h ⊢
    rw [if_pos (by omega : T.selected_pairs.length
      < min_number_of_pairs_to_build_cluster)] at h
    dsimp only at h
    rw [hTc] at h
    exfalso
    have hlen := congrArg List.length h
    rw [List.length_append] at hlen
    simp at hlen

/-- Witness for the amended claim C7: growing from seed pair 0 out of the
state the seed loop prepares for it, `maybe_create_cluster` emits the pair
list [0, 1, 2], and each of those pairs is assigned to the new cluster 0. -/
theorem maybe_create_cluster_c7_amended_witness :
    ((maybe_create_cluster 100 c2_pm c2_pm c2_ph 0 c7_w_state).clusters.pairs
        = c7_w_state.clusters.pairs ++ [[0, 1, 2]])
      ∧ (maybe_create_cluster 100 c2_pm c2_pm c2_ph 0 c7_w_state).assigner.get_cluster 0
          = some c7_w_state.clusters.similar.length := by
  have h : (maybe_create_cluster 100 c2_pm c2_pm c2_ph 0 c7_w_state).clusters.pairs
      = c7_w_state.clusters.pairs ++ [[0, 1, 2]] := by decide
  exact ⟨h, maybe_create_cluster_c7_amended 100 c2_pm c2_pm c2_ph 0 c7_w_state
    [0, 1, 2] h 0 (by decide)⟩

end Bozorth

namespace Bozorth

/-- Witness for the amended claim C2: on the concrete three-pair input the
preliminary best 9 reaches the threshold and the returned value is the
combine score paired with the empty list. -/
theorem match_score_c2_amended_witness :
    MINIMAL_NUMBER_OF_MINUTIA ≤ c2_pm.length
      ∧ score_threshold ≤ (preliminary_score (match_score 100 zeroAtan c2_ph c2_pm c2_pm
          Format.NistInternal BozorthState.new).2.clusters).1
      ∧ (match_score 100 zeroAtan c2_ph c2_pm c2_pm Format.NistInternal
            BozorthState.new).1
          = Except.ok ((combine_clusters (match_score 100 zeroAtan c2_ph c2_pm c2_pm
              Format.NistInternal BozorthState.new).2.clusters false).1, []) := by
  refine ⟨by decide, by decide, ?_⟩
  exact match_score_c2_amended 100 zeroAtan c2_ph c2_pm c2_pm Format.NistInternal
    BozorthState.new (by decide) (by decide) (by decide)

end Bozorth
